import Mathlib

/-!
Verification of the sporadic-server replenishment engine of an seL4-MCS
scheduling context, shallowly embedded from `src/object/schedcontext`-style
C sources (`refill_next`, `refill_pop_head`, `refill_add_tail`,
`schedule_used`, `refill_new`, `refill_update`, `refill_budget_check`,
`refill_unblock_check`) and the query functions from `kernel/sporadic.h`.

Machine words are modelled as `Nat`; every C unsigned subtraction performed
by the engine is shown (or hypothesised) not to underflow, so the `Nat`
truncated subtraction agrees with the machine arithmetic at every program
point that the theorems reach.
-/

namespace Sporadic

/-- A single replenishment: `rAmount` ticks of budget become usable at
wall-clock time `rTime`.  Mirrors the C `refill_t`. -/
structure refill_t where
  rTime : Nat
  rAmount : Nat
deriving Repr, DecidableEq

/-- The scheduling-context fields used by the refill engine.  The inlined
slot array of the C object is modelled as the total function `scRefills`;
the engine only ever reads and writes indices below `scRefillMax`. -/
structure sched_context_t where
  scPeriod : Nat
  scBudget : Nat
  scRefillMax : Nat
  scRefillHead : Nat
  scRefillCount : Nat
  scRefills : Nat → refill_t

/-- The external state the engine reads: the current time on the SC's core
(`ksCurTime`), the worst-case kernel entry/exit time in ticks and the
configured WCET scale factor. -/
structure Ctx where
  ksCurTime : Nat
  kernelWcetTicks : Nat
  wcetScale : Nat
deriving Repr, DecidableEq

/-- `MIN_BUDGET = 2 * getKernelWcetTicks() * CONFIG_KERNEL_WCET_SCALE`. -/
def MIN_BUDGET (ctx : Ctx) : Nat := 2 * ctx.kernelWcetTicks * ctx.wcetScale

/-- `MIN_SC_BUDGET = 2 * MIN_BUDGET`. -/
def MIN_SC_BUDGET (ctx : Ctx) : Nat := 2 * MIN_BUDGET ctx

/-- Write slot `i` of the refill buffer. -/
def update_refill (sc : sched_context_t) (i : Nat) (r : refill_t) : sched_context_t :=
  { sc with scRefills := fun j => if j = i then r else sc.scRefills j }

/-- `REFILL_INDEX(sc, index)`. -/
def REFILL_INDEX (sc : sched_context_t) (index : Nat) : refill_t :=
  sc.scRefills index

/-- `refill_next`: index of the next item in the refill queue
(conditional wrap-around instead of `%`, as in the source). -/
def refill_next (sc : sched_context_t) (index : Nat) : Nat :=
  if index = sc.scRefillMax - 1 then 0 else index + 1

/-- `refill_size`: number of refills currently in the queue. -/
def refill_size (sc : sched_context_t) : Nat := sc.scRefillCount

/-- `refill_full`. -/
def refill_full (sc : sched_context_t) : Prop := sc.scRefillCount = sc.scRefillMax

instance (sc : sched_context_t) : Decidable (refill_full sc) :=
  inferInstanceAs (Decidable (_ = _))

/-- `refill_empty`. -/
def refill_empty (sc : sched_context_t) : Prop := sc.scRefillCount = 0

instance (sc : sched_context_t) : Decidable (refill_empty sc) :=
  inferInstanceAs (Decidable (_ = _))

/-- `refill_tail_index`: `head + count - 1`, reduced by `max` once if it
overflows the buffer (conditional subtract instead of `%`, as in the
source). -/
def refill_tail_index (sc : sched_context_t) : Nat :=
  if sc.scRefillHead + sc.scRefillCount - 1 ≥ sc.scRefillMax then
    sc.scRefillHead + sc.scRefillCount - 1 - sc.scRefillMax
  else
    sc.scRefillHead + sc.scRefillCount - 1

/-- `REFILL_HEAD(sc)`. -/
def REFILL_HEAD (sc : sched_context_t) : refill_t :=
  REFILL_INDEX sc sc.scRefillHead

/-- `REFILL_TAIL(sc)`. -/
def REFILL_TAIL (sc : sched_context_t) : refill_t :=
  REFILL_INDEX sc (refill_tail_index sc)

/-- `refill_pop_head`: return the head refill, advance the head index and
decrement the count. -/
def refill_pop_head (sc : sched_context_t) : refill_t × sched_context_t :=
  (REFILL_HEAD sc,
    { sc with
      scRefillHead := refill_next sc sc.scRefillHead
      scRefillCount := sc.scRefillCount - 1 })

/-- `refill_add_tail`: increment the count, then write the new refill at the
(new) tail slot. -/
def refill_add_tail (sc : sched_context_t) (refill : refill_t) : sched_context_t :=
  let sc₁ : sched_context_t := { sc with scRefillCount := sc.scRefillCount + 1 }
  update_refill sc₁ (refill_tail_index sc₁) refill

/-- `refill_capacity(sc, usage)`: remaining head budget after charging
`usage`, clamped at zero exactly as the C guard does. -/
def refill_capacity (sc : sched_context_t) (usage : Nat) : Nat :=
  if usage > (REFILL_HEAD sc).rAmount then 0
  else (REFILL_HEAD sc).rAmount - usage

/-- `refill_sufficient(sc, usage)`. -/
def refill_sufficient (ctx : Ctx) (sc : sched_context_t) (usage : Nat) : Prop :=
  refill_capacity sc usage ≥ MIN_BUDGET ctx

instance (ctx : Ctx) (sc : sched_context_t) (usage : Nat) :
    Decidable (refill_sufficient ctx sc usage) :=
  inferInstanceAs (Decidable (_ ≤ _))

/-- `refill_ready(sc)`: the head refill is eligible within one WCET of now. -/
def refill_ready (ctx : Ctx) (sc : sched_context_t) : Prop :=
  (REFILL_HEAD sc).rTime ≤ ctx.ksCurTime + ctx.kernelWcetTicks

instance (ctx : Ctx) (sc : sched_context_t) : Decidable (refill_ready ctx sc) :=
  inferInstanceAs (Decidable (_ ≤ _))

/-- `sc_active(sc)`. -/
def sc_active (sc : sched_context_t) : Prop := sc.scRefillMax > 0

instance (sc : sched_context_t) : Decidable (sc_active sc) :=
  inferInstanceAs (Decidable (_ < _))

/-- Modelled from the spec: `isRoundRobin` is supplied by the round-robin
sibling policy, which is not part of these sources; the spec states that the
round-robin policy marks its scheduling contexts by setting
`period == budget` and that the engine detects them via this predicate. -/
def isRoundRobin (sc : sched_context_t) : Prop := sc.scPeriod = sc.scBudget

instance (sc : sched_context_t) : Decidable (isRoundRobin sc) :=
  inferInstanceAs (Decidable (_ = _))

/-- `refill_new`: initialise a fresh SC with a single refill of the full
budget, usable from the current time. -/
def refill_new (ctx : Ctx) (sc : sched_context_t) (max_refills budget period : Nat) :
    sched_context_t :=
  let sc₁ : sched_context_t :=
    { sc with
      scPeriod := period
      scBudget := budget
      scRefillHead := 0
      scRefillCount := 1
      scRefillMax := max_refills }
  update_refill sc₁ sc₁.scRefillHead ⟨ctx.ksCurTime, budget⟩

/-- `schedule_used`: append a just-consumed refill at the tail, splitting
from or merging into the existing tail as required to keep every refill at
least `MIN_BUDGET`. -/
def schedule_used (ctx : Ctx) (sc : sched_context_t) (new : refill_t) : sched_context_t :=
  if refill_empty sc then
    refill_add_tail sc new
  else if new.rAmount < MIN_BUDGET ctx ∧ ¬ refill_full sc ∧
      2 * MIN_BUDGET ctx ≤ (REFILL_TAIL sc).rAmount + new.rAmount then
    let remainder := MIN_BUDGET ctx - new.rAmount
    let sc₁ := update_refill sc (refill_tail_index sc)
      ⟨(REFILL_TAIL sc).rTime, (REFILL_TAIL sc).rAmount - remainder⟩
    refill_add_tail sc₁ ⟨new.rTime - remainder, new.rAmount + remainder⟩
  else if new.rAmount < MIN_BUDGET ctx ∨ refill_full sc then
    update_refill sc (refill_tail_index sc)
      ⟨new.rTime - (REFILL_TAIL sc).rAmount, (REFILL_TAIL sc).rAmount + new.rAmount⟩
  else
    refill_add_tail sc new

/-- `refill_update`: reconfigure a live SC to a new period, budget and
capacity without exceeding the new bandwidth. -/
def refill_update (ctx : Ctx) (sc : sched_context_t)
    (new_period new_budget new_max_refills : Nat) : sched_context_t :=
  let sc₁ := update_refill sc 0 (REFILL_HEAD sc)
  let sc₂ : sched_context_t :=
    { sc₁ with
      scRefillHead := 0
      scRefillCount := 1
      scRefillMax := new_max_refills
      scPeriod := new_period
      scBudget := new_budget }
  let sc₃ :=
    if refill_ready ctx sc₂ then
      update_refill sc₂ sc₂.scRefillHead ⟨ctx.ksCurTime, (REFILL_HEAD sc₂).rAmount⟩
    else sc₂
  if new_budget ≤ (REFILL_HEAD sc₃).rAmount then
    update_refill sc₃ sc₃.scRefillHead ⟨(REFILL_HEAD sc₃).rTime, new_budget⟩
  else
    let unused := new_budget - (REFILL_HEAD sc₃).rAmount
    schedule_used ctx sc₃ ⟨(REFILL_HEAD sc₃).rTime + new_period - unused, unused⟩

/-- `refill_budget_check`: charge `usage` ticks to the head of the current
SC and reschedule the consumed time one period later. -/
def refill_budget_check (ctx : Ctx) (sc : sched_context_t) (usage : Nat) :
    sched_context_t :=
  let last_entry := (REFILL_HEAD sc).rTime
  let used : refill_t := ⟨last_entry + sc.scPeriod, usage⟩
  if ¬ refill_ready ctx sc ∨ (REFILL_HEAD sc).rAmount < usage then
    let sc₁ : sched_context_t := { sc with scRefillCount := 0 }
    schedule_used ctx sc₁ ⟨used.rTime + usage, sc₁.scBudget⟩
  else if usage = (REFILL_HEAD sc).rAmount then
    schedule_used ctx (refill_pop_head sc).2 used
  else
    let remnant := (REFILL_HEAD sc).rAmount - usage
    if remnant ≥ MIN_BUDGET ctx then
      schedule_used ctx
        (update_refill sc sc.scRefillHead ⟨(REFILL_HEAD sc).rTime + usage, remnant⟩) used
    else
      let sc₁ := (refill_pop_head sc).2
      if refill_empty sc₁ then
        schedule_used ctx sc₁ ⟨used.rTime - remnant, used.rAmount + remnant⟩
      else
        schedule_used ctx
          (update_refill sc₁ sc₁.scRefillHead
            ⟨(REFILL_HEAD sc₁).rTime - remnant, (REFILL_HEAD sc₁).rAmount + remnant⟩) used

/-- One iteration of the coalescing loop of `refill_unblock_check`: pop the
head and fold its amount into the new head, re-sliding the new head's start
to `now + wcet`. -/
def merge_step (ctx : Ctx) (sc : sched_context_t) : sched_context_t :=
  let amount := (REFILL_HEAD sc).rAmount
  let sc₁ := (refill_pop_head sc).2
  update_refill sc₁ sc₁.scRefillHead
    ⟨ctx.ksCurTime + ctx.kernelWcetTicks, (REFILL_HEAD sc₁).rAmount + amount⟩

/-- The guard of the coalescing loop: more than one refill remains and the
second refill starts no later than the end of the (slid) head. -/
def merge_guard (sc : sched_context_t) : Prop :=
  1 < refill_size sc ∧
    (REFILL_INDEX sc (refill_next sc sc.scRefillHead)).rTime ≤
      (REFILL_HEAD sc).rTime + (REFILL_HEAD sc).rAmount

instance (sc : sched_context_t) : Decidable (merge_guard sc) :=
  inferInstanceAs (Decidable (_ ∧ _))

/-- The coalescing `while` loop of `refill_unblock_check`, expressed with a
fuel parameter.  Every loop iteration strictly decreases the refill count,
so `scRefillCount` ticks of fuel always reach the loop's own exit
(established below). -/
def merge_overlapping_go (ctx : Ctx) : Nat → sched_context_t → sched_context_t
  | 0, sc => sc
  | fuel + 1, sc =>
      if merge_guard sc then merge_overlapping_go ctx fuel (merge_step ctx sc) else sc

/-- The coalescing loop of `refill_unblock_check`. -/
def merge_overlapping (ctx : Ctx) (sc : sched_context_t) : sched_context_t :=
  merge_overlapping_go ctx sc.scRefillCount sc

/-- `refill_unblock_check`: on wake-up of a non-round-robin SC whose head is
ready, slide the head to `now + wcet` and coalesce refills made contiguous
by the slide. -/
def refill_unblock_check (ctx : Ctx) (sc : sched_context_t) : sched_context_t :=
  if isRoundRobin sc then sc
  else if refill_ready ctx sc then
    merge_overlapping ctx
      (update_refill sc sc.scRefillHead
        ⟨ctx.ksCurTime + ctx.kernelWcetTicks, (REFILL_HEAD sc).rAmount⟩)
  else sc

/-! ### Abstraction: the occupied arc of the circular buffer, as a list -/

/-- The refills currently in the queue, from head to tail. -/
def refills_list (sc : sched_context_t) : List refill_t :=
  (List.range sc.scRefillCount).map
    (fun k => sc.scRefills ((sc.scRefillHead + k) % sc.scRefillMax))

/-- Structural well-formedness of an active SC: the head index is a valid
slot and the queue is non-empty and within capacity. -/
def sc_wf (sc : sched_context_t) : Prop :=
  sc.scRefillHead < sc.scRefillMax ∧ 1 ≤ sc.scRefillCount ∧
    sc.scRefillCount ≤ sc.scRefillMax

instance (sc : sched_context_t) : Decidable (sc_wf sc) :=
  inferInstanceAs (Decidable (_ ∧ _))

/-- P1 between two adjacent refills: the first ends no later than the
second starts. -/
def refill_disjoint (a b : refill_t) : Prop := a.rTime + a.rAmount ≤ b.rTime

instance : DecidableRel refill_disjoint := fun _ _ => inferInstanceAs (Decidable (_ ≤ _))

/-- P1: the refills are in order and pairwise disjoint. -/
def ordered_disjoint_l (l : List refill_t) : Prop := l.Chain' refill_disjoint

/-- Executable check for `ordered_disjoint_l`. -/
def ordered_disjoint_b : List refill_t → Bool
  | [] => true
  | [_] => true
  | a :: b :: t => decide (refill_disjoint a b) && ordered_disjoint_b (b :: t)

theorem ordered_disjoint_b_iff :
    ∀ l : List refill_t, ordered_disjoint_b l = true ↔ ordered_disjoint_l l
  | [] => by simp [ordered_disjoint_b, ordered_disjoint_l]
  | [a] => by simp [ordered_disjoint_b, ordered_disjoint_l]
  | a :: b :: t => by
    unfold ordered_disjoint_b
    rw [Bool.and_eq_true, decide_eq_true_iff, ordered_disjoint_b_iff (b :: t)]
    unfold ordered_disjoint_l
    rw [List.chain'_cons]

instance (l : List refill_t) : Decidable (ordered_disjoint_l l) :=
  decidable_of_iff _ (ordered_disjoint_b_iff l)

/-- P2: every refill carries at least `mb` ticks. -/
def min_budget_l (mb : Nat) (l : List refill_t) : Prop := ∀ r ∈ l, mb ≤ r.rAmount

instance (mb : Nat) (l : List refill_t) : Decidable (min_budget_l mb l) :=
  List.decidableBAll _ _

/-- The sum of the refill amounts of a queue. -/
def sum_amounts (l : List refill_t) : Nat := (l.map refill_t.rAmount).sum

/-- P4: the whole queue, including the tail's amount, fits in one period
(`tail.rTime + tail.rAmount - head.rTime ≤ period`, with the machine's
truncated subtraction). -/
def within_period_l (period : Nat) (l : List refill_t) : Prop :=
  (l.getLast?.getD ⟨0, 0⟩).rTime + (l.getLast?.getD ⟨0, 0⟩).rAmount -
      (l.head?.getD ⟨0, 0⟩).rTime ≤ period

instance (period : Nat) (l : List refill_t) : Decidable (within_period_l period l) :=
  inferInstanceAs (Decidable (_ ≤ _))

/-- The five universal invariants P1-P5 of the specification. -/
def sc_invariants (ctx : Ctx) (sc : sched_context_t) : Prop :=
  ordered_disjoint_l (refills_list sc) ∧
    min_budget_l (MIN_BUDGET ctx) (refills_list sc) ∧
    sum_amounts (refills_list sc) = sc.scBudget ∧
    within_period_l sc.scPeriod (refills_list sc) ∧
    sc.scRefillCount ≤ sc.scRefillMax

instance (ctx : Ctx) (sc : sched_context_t) : Decidable (sc_invariants ctx sc) :=
  inferInstanceAs (Decidable (_ ∧ _))

/-! ### Index arithmetic of the circular buffer -/

theorem arc_index_inj {max head j k : Nat} (hj : j < max) (hk : k < max)
    (h : (head + j) % max = (head + k) % max) : j = k := by
  have hmod : j % max = k % max := by
    have := Nat.ModEq.add_left_cancel' head (Nat.ModEq.symm h)
    exact (Nat.ModEq.symm this)
  rwa [Nat.mod_eq_of_lt hj, Nat.mod_eq_of_lt hk] at hmod

theorem refill_next_eq_mod (sc : sched_context_t) (i : Nat) (hi : i < sc.scRefillMax) :
    refill_next sc i = (i + 1) % sc.scRefillMax := by
  unfold refill_next
  by_cases h : i = sc.scRefillMax - 1
  · subst h
    have h1 : sc.scRefillMax - 1 + 1 = sc.scRefillMax := by omega
    simp [h1, Nat.mod_self]
  · have h2 : i + 1 < sc.scRefillMax := by omega
    simp [h, Nat.mod_eq_of_lt h2]

theorem refill_next_lt (sc : sched_context_t) (i : Nat) (hi : i < sc.scRefillMax) :
    refill_next sc i < sc.scRefillMax := by
  rw [refill_next_eq_mod sc i hi]
  exact Nat.mod_lt _ (by omega)

theorem refill_tail_index_eq_mod (sc : sched_context_t)
    (hh : sc.scRefillHead < sc.scRefillMax) (_hc1 : 1 ≤ sc.scRefillCount)
    (hcm : sc.scRefillCount ≤ sc.scRefillMax) :
    refill_tail_index sc = (sc.scRefillHead + sc.scRefillCount - 1) % sc.scRefillMax := by
  unfold refill_tail_index
  set i := sc.scRefillHead + sc.scRefillCount - 1 with hi
  by_cases h : i ≥ sc.scRefillMax
  · have h2 : i - sc.scRefillMax < sc.scRefillMax := by omega
    have h3 : i % sc.scRefillMax = (i - sc.scRefillMax) % sc.scRefillMax :=
      (Nat.mod_eq_sub_mod h)
    simp [h, h3, Nat.mod_eq_of_lt h2]
  · simp [h, Nat.mod_eq_of_lt (by omega : i < sc.scRefillMax)]

theorem refill_tail_index_lt (sc : sched_context_t)
    (hh : sc.scRefillHead < sc.scRefillMax) (hc1 : 1 ≤ sc.scRefillCount)
    (hcm : sc.scRefillCount ≤ sc.scRefillMax) :
    refill_tail_index sc < sc.scRefillMax := by
  rw [refill_tail_index_eq_mod sc hh hc1 hcm]
  exact Nat.mod_lt _ (by omega)

/-! ### Projection lemmas for the state-updating primitives -/

@[simp] theorem update_refill_scPeriod (sc : sched_context_t) (i : Nat) (r : refill_t) :
    (update_refill sc i r).scPeriod = sc.scPeriod := rfl

@[simp] theorem update_refill_scBudget (sc : sched_context_t) (i : Nat) (r : refill_t) :
    (update_refill sc i r).scBudget = sc.scBudget := rfl

@[simp] theorem update_refill_scRefillMax (sc : sched_context_t) (i : Nat) (r : refill_t) :
    (update_refill sc i r).scRefillMax = sc.scRefillMax := rfl

@[simp] theorem update_refill_scRefillHead (sc : sched_context_t) (i : Nat) (r : refill_t) :
    (update_refill sc i r).scRefillHead = sc.scRefillHead := rfl

@[simp] theorem update_refill_scRefillCount (sc : sched_context_t) (i : Nat) (r : refill_t) :
    (update_refill sc i r).scRefillCount = sc.scRefillCount := rfl

theorem update_refill_read_eq (sc : sched_context_t) (i : Nat) (r : refill_t) :
    (update_refill sc i r).scRefills i = r := by
  simp [update_refill]

theorem update_refill_read_ne (sc : sched_context_t) (i j : Nat) (r : refill_t)
    (h : j ≠ i) : (update_refill sc i r).scRefills j = sc.scRefills j := by
  simp [update_refill, h]

@[simp] theorem pop_scPeriod (sc : sched_context_t) :
    (refill_pop_head sc).2.scPeriod = sc.scPeriod := rfl

@[simp] theorem pop_scBudget (sc : sched_context_t) :
    (refill_pop_head sc).2.scBudget = sc.scBudget := rfl

@[simp] theorem pop_scRefillMax (sc : sched_context_t) :
    (refill_pop_head sc).2.scRefillMax = sc.scRefillMax := rfl

@[simp] theorem pop_scRefillCount (sc : sched_context_t) :
    (refill_pop_head sc).2.scRefillCount = sc.scRefillCount - 1 := rfl

@[simp] theorem pop_scRefills (sc : sched_context_t) :
    (refill_pop_head sc).2.scRefills = sc.scRefills := rfl

theorem pop_fst (sc : sched_context_t) : (refill_pop_head sc).1 = REFILL_HEAD sc := rfl

theorem pop_scRefillHead (sc : sched_context_t)
    (hh : sc.scRefillHead < sc.scRefillMax) :
    (refill_pop_head sc).2.scRefillHead = (sc.scRefillHead + 1) % sc.scRefillMax := by
  simp [refill_pop_head, refill_next_eq_mod sc _ hh]

theorem pop_head_lt (sc : sched_context_t) (hh : sc.scRefillHead < sc.scRefillMax) :
    (refill_pop_head sc).2.scRefillHead < sc.scRefillMax :=
  refill_next_lt sc _ hh

@[simp] theorem add_tail_scPeriod (sc : sched_context_t) (r : refill_t) :
    (refill_add_tail sc r).scPeriod = sc.scPeriod := rfl

@[simp] theorem add_tail_scBudget (sc : sched_context_t) (r : refill_t) :
    (refill_add_tail sc r).scBudget = sc.scBudget := rfl

@[simp] theorem add_tail_scRefillMax (sc : sched_context_t) (r : refill_t) :
    (refill_add_tail sc r).scRefillMax = sc.scRefillMax := rfl

@[simp] theorem add_tail_scRefillHead (sc : sched_context_t) (r : refill_t) :
    (refill_add_tail sc r).scRefillHead = sc.scRefillHead := rfl

@[simp] theorem add_tail_scRefillCount (sc : sched_context_t) (r : refill_t) :
    (refill_add_tail sc r).scRefillCount = sc.scRefillCount + 1 := rfl

/-! ### `refills_list` characterisations of the primitives -/

theorem length_refills_list (sc : sched_context_t) :
    (refills_list sc).length = sc.scRefillCount := by
  simp [refills_list]

theorem refills_list_ne_nil (sc : sched_context_t) (hc : 1 ≤ sc.scRefillCount) :
    refills_list sc ≠ [] := by
  intro h
  have := length_refills_list sc
  rw [h] at this
  simp at this
  omega

theorem head?_refills_list (sc : sched_context_t)
    (hh : sc.scRefillHead < sc.scRefillMax) (hc : 1 ≤ sc.scRefillCount) :
    (refills_list sc).head? = some (REFILL_HEAD sc) := by
  obtain ⟨m, hm⟩ : ∃ m, sc.scRefillCount = m + 1 := ⟨sc.scRefillCount - 1, by omega⟩
  unfold refills_list
  rw [hm, List.range_succ_eq_map]
  simp [REFILL_HEAD, REFILL_INDEX, Nat.mod_eq_of_lt hh]

theorem getLast?_refills_list (sc : sched_context_t)
    (hh : sc.scRefillHead < sc.scRefillMax) (hc : 1 ≤ sc.scRefillCount)
    (hcm : sc.scRefillCount ≤ sc.scRefillMax) :
    (refills_list sc).getLast? = some (REFILL_TAIL sc) := by
  obtain ⟨m, hm⟩ : ∃ m, sc.scRefillCount = m + 1 := ⟨sc.scRefillCount - 1, by omega⟩
  unfold refills_list
  rw [hm, List.range_succ, List.map_append]
  simp only [List.map_cons, List.map_nil, List.getLast?_concat]
  rw [REFILL_TAIL, REFILL_INDEX, refill_tail_index_eq_mod sc hh hc hcm, hm]
  simp

theorem refills_list_pop (sc : sched_context_t)
    (hh : sc.scRefillHead < sc.scRefillMax) (hc : 1 ≤ sc.scRefillCount) :
    refills_list (refill_pop_head sc).2 = (refills_list sc).tail := by
  obtain ⟨m, hm⟩ : ∃ m, sc.scRefillCount = m + 1 := ⟨sc.scRefillCount - 1, by omega⟩
  unfold refills_list
  rw [pop_scRefills, pop_scRefillCount, pop_scRefillHead sc hh, pop_scRefillMax, hm]
  have h1 : m + 1 - 1 = m := by omega
  rw [h1]
  conv_rhs => rw [List.range_succ_eq_map]
  rw [List.map_cons, List.tail_cons, List.map_map]
  refine List.map_congr_left (fun k _ => ?_)
  show sc.scRefills _ = sc.scRefills _
  congr 1
  rw [Nat.mod_add_mod]
  congr 1
  omega

theorem refills_list_add_tail (sc : sched_context_t) (r : refill_t)
    (hh : sc.scRefillHead < sc.scRefillMax) (hcm : sc.scRefillCount < sc.scRefillMax) :
    refills_list (refill_add_tail sc r) = refills_list sc ++ [r] := by
  have ht : refill_tail_index
      { sc with scRefillCount := sc.scRefillCount + 1 } =
      (sc.scRefillHead + sc.scRefillCount) % sc.scRefillMax := by
    have := refill_tail_index_eq_mod
      { sc with scRefillCount := sc.scRefillCount + 1 } hh
      (by show 1 ≤ sc.scRefillCount + 1; omega)
      (by show sc.scRefillCount + 1 ≤ sc.scRefillMax; omega)
    simpa using this
  unfold refill_add_tail
  unfold refills_list
  simp only [update_refill_scRefillCount, update_refill_scRefillHead,
    update_refill_scRefillMax]
  rw [List.range_succ, List.map_append]
  simp only [List.map_cons, List.map_nil]
  congr 1
  · refine List.map_congr_left (fun k hk => ?_)
    rw [List.mem_range] at hk
    rw [ht, update_refill_read_ne]
    intro hcontra
    have := arc_index_inj
      (by omega : k < sc.scRefillMax) (by omega : sc.scRefillCount < sc.scRefillMax) hcontra
    omega
  · rw [ht, update_refill_read_eq]

theorem refills_list_set_head (sc : sched_context_t) (r : refill_t)
    (hh : sc.scRefillHead < sc.scRefillMax) (hc : 1 ≤ sc.scRefillCount)
    (hcm : sc.scRefillCount ≤ sc.scRefillMax) :
    refills_list (update_refill sc sc.scRefillHead r) = r :: (refills_list sc).tail := by
  obtain ⟨m, hm⟩ : ∃ m, sc.scRefillCount = m + 1 := ⟨sc.scRefillCount - 1, by omega⟩
  unfold refills_list
  simp only [update_refill_scRefillCount, update_refill_scRefillHead,
    update_refill_scRefillMax, hm]
  rw [List.range_succ_eq_map]
  simp only [List.map_cons, List.tail_cons, List.map_map]
  congr 1
  · rw [Nat.add_zero, Nat.mod_eq_of_lt hh, update_refill_read_eq]
  · refine List.map_congr_left (fun k hk => ?_)
    rw [List.mem_range] at hk
    show (update_refill sc sc.scRefillHead r).scRefills _ = sc.scRefills _
    rw [update_refill_read_ne]
    intro hcontra
    have h0 : (sc.scRefillHead + (k + 1)) % sc.scRefillMax =
        (sc.scRefillHead + 0) % sc.scRefillMax := by
      have hz : (sc.scRefillHead + 0) % sc.scRefillMax = sc.scRefillHead := by
        simp [Nat.mod_eq_of_lt hh]
      rw [hz]
      exact hcontra
    have := arc_index_inj
      (by omega : k + 1 < sc.scRefillMax) (by omega : 0 < sc.scRefillMax) h0
    omega

theorem refills_list_set_tail (sc : sched_context_t) (r : refill_t)
    (hh : sc.scRefillHead < sc.scRefillMax) (hc : 1 ≤ sc.scRefillCount)
    (hcm : sc.scRefillCount ≤ sc.scRefillMax) :
    refills_list (update_refill sc (refill_tail_index sc) r) =
      (refills_list sc).dropLast ++ [r] := by
  obtain ⟨m, hm⟩ : ∃ m, sc.scRefillCount = m + 1 := ⟨sc.scRefillCount - 1, by omega⟩
  have ht : refill_tail_index sc = (sc.scRefillHead + m) % sc.scRefillMax := by
    rw [refill_tail_index_eq_mod sc hh hc hcm, hm]
    simp
  have hbase : refills_list sc =
      (List.range m).map
        (fun k => sc.scRefills ((sc.scRefillHead + k) % sc.scRefillMax)) ++
        [sc.scRefills ((sc.scRefillHead + m) % sc.scRefillMax)] := by
    unfold refills_list
    rw [hm, List.range_succ, List.map_append]
    simp
  rw [hbase, List.dropLast_concat]
  unfold refills_list
  simp only [update_refill_scRefillCount, update_refill_scRefillHead,
    update_refill_scRefillMax, hm]
  rw [List.range_succ, List.map_append]
  simp only [List.map_cons, List.map_nil]
  congr 1
  · refine List.map_congr_left (fun k hk => ?_)
    rw [List.mem_range] at hk
    rw [ht, update_refill_read_ne]
    intro hcontra
    have := arc_index_inj
      (by omega : k < sc.scRefillMax) (by omega : m < sc.scRefillMax) hcontra
    omega
  · rw [ht, update_refill_read_eq]

theorem refills_list_set_same (sc : sched_context_t) (i : Nat) :
    refills_list (update_refill sc i (sc.scRefills i)) = refills_list sc := by
  unfold refills_list
  simp only [update_refill_scRefillCount, update_refill_scRefillHead,
    update_refill_scRefillMax]
  refine List.map_congr_left (fun k _ => ?_)
  by_cases h : (sc.scRefillHead + k) % sc.scRefillMax = i
  · rw [h, update_refill_read_eq]
  · rw [update_refill_read_ne _ _ _ _ h]

theorem refills_list_count_zero (sc : sched_context_t) (h : sc.scRefillCount = 0) :
    refills_list sc = [] := by
  unfold refills_list
  rw [h]
  simp

/-! ### Pure list lemmas about the invariants -/

/-- The first instant after a refill: `rTime + rAmount`. -/
def rEnd (r : refill_t) : Nat := r.rTime + r.rAmount

/-- Start time of the first refill of a queue (0 for the empty queue). -/
def listStart (l : List refill_t) : Nat := (l.head?.getD ⟨0, 0⟩).rTime

/-- End of the last refill of a queue (0 for the empty queue). -/
def listEnd (l : List refill_t) : Nat := rEnd (l.getLast?.getD ⟨0, 0⟩)

theorem within_period_iff (period : Nat) (l : List refill_t) :
    within_period_l period l ↔ listEnd l ≤ listStart l + period := by
  unfold within_period_l listEnd listStart rEnd
  omega

@[simp] theorem sum_amounts_nil : sum_amounts [] = 0 := rfl

@[simp] theorem sum_amounts_cons (a : refill_t) (l : List refill_t) :
    sum_amounts (a :: l) = a.rAmount + sum_amounts l := by
  simp [sum_amounts]

@[simp] theorem sum_amounts_append (l₁ l₂ : List refill_t) :
    sum_amounts (l₁ ++ l₂) = sum_amounts l₁ + sum_amounts l₂ := by
  simp [sum_amounts]

@[simp] theorem listStart_cons (a : refill_t) (l : List refill_t) :
    listStart (a :: l) = a.rTime := by
  simp [listStart]

@[simp] theorem listEnd_concat (l : List refill_t) (a : refill_t) :
    listEnd (l ++ [a]) = rEnd a := by
  simp [listEnd, List.getLast?_concat]

theorem listEnd_cons_cons (a b : refill_t) (l : List refill_t) :
    listEnd (a :: b :: l) = listEnd (b :: l) := by
  simp [listEnd, List.getLast?_cons_cons]

theorem dropLast_concat_getD (l : List refill_t) (h : l ≠ []) (d : refill_t) :
    l.dropLast ++ [l.getLast?.getD d] = l := by
  rw [List.getLast?_eq_getLast _ h]
  simp [List.dropLast_append_getLast]

theorem exists_cons_of_ne_nil {l : List refill_t} (h : l ≠ []) :
    ∃ a t, l = a :: t := by
  cases l with
  | nil => simp at h
  | cons a t => exact ⟨a, t, rfl⟩

/-- Because refills are ordered and disjoint, the whole budget of a queue
fits between the start of its first refill and the end of its last. -/
theorem sum_start_le_listEnd :
    ∀ l : List refill_t, ordered_disjoint_l l → l ≠ [] →
      sum_amounts l + listStart l ≤ listEnd l
  | [], _, h => absurd rfl h
  | [a], _, _ => by simp [listEnd, listStart, rEnd, sum_amounts]; omega
  | a :: b :: t, hchain, _ => by
      have hab : refill_disjoint a b := List.chain'_cons.mp hchain |>.1
      have htail := sum_start_le_listEnd (b :: t) (List.chain'_cons.mp hchain).2 (by simp)
      rw [listEnd_cons_cons]
      unfold refill_disjoint at hab
      simp only [sum_amounts_cons, listStart_cons] at *
      omega

/-- The sum of the amounts of an invariant-satisfying queue is at most the
period. -/
theorem sum_le_period (ctx : Ctx) (sc : sched_context_t)
    (hwf : sc_wf sc) (hinv : sc_invariants ctx sc) :
    sc.scBudget ≤ sc.scPeriod ∧ sum_amounts (refills_list sc) ≤ sc.scPeriod := by
  obtain ⟨hh, hc, hcm⟩ := hwf
  obtain ⟨hchain, _hmin, hsum, hwindow, _⟩ := hinv
  have hne := refills_list_ne_nil sc hc
  have h1 := sum_start_le_listEnd (refills_list sc) hchain hne
  rw [within_period_iff] at hwindow
  omega

/-- Bridges between the head/tail slot reads and the list abstraction. -/
theorem listStart_refills_list (sc : sched_context_t)
    (hh : sc.scRefillHead < sc.scRefillMax) (hc : 1 ≤ sc.scRefillCount) :
    listStart (refills_list sc) = (REFILL_HEAD sc).rTime := by
  unfold listStart
  rw [head?_refills_list sc hh hc]
  rfl

theorem listEnd_refills_list (sc : sched_context_t)
    (hh : sc.scRefillHead < sc.scRefillMax) (hc : 1 ≤ sc.scRefillCount)
    (hcm : sc.scRefillCount ≤ sc.scRefillMax) :
    listEnd (refills_list sc) = rEnd (REFILL_TAIL sc) := by
  unfold listEnd
  rw [getLast?_refills_list sc hh hc hcm]
  rfl

theorem head_mem_refills_list (sc : sched_context_t)
    (hh : sc.scRefillHead < sc.scRefillMax) (hc : 1 ≤ sc.scRefillCount) :
    REFILL_HEAD sc ∈ refills_list sc := by
  have h := head?_refills_list sc hh hc
  exact List.mem_of_mem_head? (by rw [h]; rfl)

theorem tail_mem_refills_list (sc : sched_context_t)
    (hh : sc.scRefillHead < sc.scRefillMax) (hc : 1 ≤ sc.scRefillCount)
    (hcm : sc.scRefillCount ≤ sc.scRefillMax) :
    REFILL_TAIL sc ∈ refills_list sc := by
  have h := getLast?_refills_list sc hh hc hcm
  exact List.mem_of_mem_getLast? (by rw [h]; rfl)

/-! ### Characterisation of `schedule_used` -/

theorem schedule_used_proj (ctx : Ctx) (sc : sched_context_t) (new : refill_t) :
    (schedule_used ctx sc new).scPeriod = sc.scPeriod ∧
      (schedule_used ctx sc new).scBudget = sc.scBudget ∧
      (schedule_used ctx sc new).scRefillMax = sc.scRefillMax ∧
      (schedule_used ctx sc new).scRefillHead = sc.scRefillHead := by
  unfold schedule_used
  split_ifs <;> simp [refill_add_tail]

theorem schedule_used_empty_char (ctx : Ctx) (sc : sched_context_t) (new : refill_t)
    (hc : sc.scRefillCount = 0) (hh : sc.scRefillHead < sc.scRefillMax) :
    refills_list (schedule_used ctx sc new) = [new] ∧
      (schedule_used ctx sc new).scRefillCount = 1 := by
  have hempty : refill_empty sc := hc
  unfold schedule_used
  rw [if_pos hempty]
  constructor
  · rw [refills_list_add_tail sc new hh (by omega)]
    rw [refills_list_count_zero sc hc]
    simp
  · simp [hc]

theorem schedule_used_split_char (ctx : Ctx) (sc : sched_context_t) (new : refill_t)
    (hh : sc.scRefillHead < sc.scRefillMax) (hc : 1 ≤ sc.scRefillCount)
    (hcm : sc.scRefillCount ≤ sc.scRefillMax)
    (h1 : new.rAmount < MIN_BUDGET ctx) (h2 : sc.scRefillCount ≠ sc.scRefillMax)
    (h3 : 2 * MIN_BUDGET ctx ≤ (REFILL_TAIL sc).rAmount + new.rAmount) :
    refills_list (schedule_used ctx sc new) =
      (refills_list sc).dropLast ++
        [⟨(REFILL_TAIL sc).rTime,
          (REFILL_TAIL sc).rAmount - (MIN_BUDGET ctx - new.rAmount)⟩,
         ⟨new.rTime - (MIN_BUDGET ctx - new.rAmount),
          new.rAmount + (MIN_BUDGET ctx - new.rAmount)⟩] ∧
      (schedule_used ctx sc new).scRefillCount = sc.scRefillCount + 1 := by
  have hempty : ¬ refill_empty sc := by unfold refill_empty; omega
  have hfull : ¬ refill_full sc := h2
  unfold schedule_used
  rw [if_neg hempty, if_pos ⟨h1, hfull, h3⟩]
  set sc₁ := update_refill sc (refill_tail_index sc)
    ⟨(REFILL_TAIL sc).rTime, (REFILL_TAIL sc).rAmount - (MIN_BUDGET ctx - new.rAmount)⟩
    with hsc₁
  have hh₁ : sc₁.scRefillHead < sc₁.scRefillMax := by simp [hsc₁]; exact hh
  have hcm₁ : sc₁.scRefillCount < sc₁.scRefillMax := by simp [hsc₁]; omega
  constructor
  · rw [refills_list_add_tail sc₁ _ hh₁ hcm₁, hsc₁,
      refills_list_set_tail sc _ hh hc hcm]
    simp
  · simp [refill_add_tail, hsc₁]

theorem schedule_used_merge_char (ctx : Ctx) (sc : sched_context_t) (new : refill_t)
    (hh : sc.scRefillHead < sc.scRefillMax) (hc : 1 ≤ sc.scRefillCount)
    (hcm : sc.scRefillCount ≤ sc.scRefillMax)
    (hsplit : ¬ (new.rAmount < MIN_BUDGET ctx ∧ ¬ refill_full sc ∧
      2 * MIN_BUDGET ctx ≤ (REFILL_TAIL sc).rAmount + new.rAmount))
    (hmerge : new.rAmount < MIN_BUDGET ctx ∨ sc.scRefillCount = sc.scRefillMax) :
    refills_list (schedule_used ctx sc new) =
      (refills_list sc).dropLast ++
        [⟨new.rTime - (REFILL_TAIL sc).rAmount,
          (REFILL_TAIL sc).rAmount + new.rAmount⟩] ∧
      (schedule_used ctx sc new).scRefillCount = sc.scRefillCount := by
  have hempty : ¬ refill_empty sc := by unfold refill_empty; omega
  unfold schedule_used
  rw [if_neg hempty, if_neg hsplit,
    if_pos (show new.rAmount < MIN_BUDGET ctx ∨ refill_full sc from hmerge)]
  constructor
  · rw [refills_list_set_tail sc _ hh hc hcm]
  · simp

theorem listStart_append_left (l rest : List refill_t) (h : l ≠ []) :
    listStart (l ++ rest) = listStart l := by
  obtain ⟨a, t, rfl⟩ := exists_cons_of_ne_nil h
  simp [listStart]

theorem dropLast_eq_nil_of_short (l : List refill_t) (h : l.length ≤ 1) :
    l.dropLast = [] := by
  apply List.eq_nil_of_length_eq_zero
  rw [List.length_dropLast]
  omega

theorem listStart_dropLast_append_two (l rest : List refill_t) (h : 2 ≤ l.length) :
    listStart (l.dropLast ++ rest) = listStart l := by
  match l, h with
  | x :: y :: t, _ =>
    have hd : (x :: y :: t).dropLast = x :: (y :: t).dropLast := by simp
    rw [hd]
    simp [listStart]

theorem schedule_used_push_char (ctx : Ctx) (sc : sched_context_t) (new : refill_t)
    (hh : sc.scRefillHead < sc.scRefillMax) (hc : 1 ≤ sc.scRefillCount)
    (hcm : sc.scRefillCount ≤ sc.scRefillMax)
    (h1 : ¬ new.rAmount < MIN_BUDGET ctx) (h2 : sc.scRefillCount ≠ sc.scRefillMax) :
    refills_list (schedule_used ctx sc new) = refills_list sc ++ [new] ∧
      (schedule_used ctx sc new).scRefillCount = sc.scRefillCount + 1 := by
  have hempty : ¬ refill_empty sc := by unfold refill_empty; omega
  unfold schedule_used
  rw [if_neg hempty, if_neg (by tauto), if_neg (by tauto)]
  constructor
  · exact refills_list_add_tail sc new hh (by omega)
  · simp

/-- Master lemma: `schedule_used` preserves the queue invariants, adds
`new.rAmount` to the queue's total, and keeps the result inside one period,
provided either the queue is empty and `new` alone is a valid queue, or the
queue is non-empty, invariant-satisfying, `new` starts no earlier than the
tail's end, `new` ends within one period of the head's start, and the grown
total still fits in the period. -/
theorem schedule_used_ok (ctx : Ctx) (sc : sched_context_t) (new : refill_t)
    (hh : sc.scRefillHead < sc.scRefillMax)
    (hcm : sc.scRefillCount ≤ sc.scRefillMax)
    (hmax : 1 ≤ sc.scRefillMax)
    (hempty : sc.scRefillCount = 0 →
      MIN_BUDGET ctx ≤ new.rAmount ∧ new.rAmount ≤ sc.scPeriod)
    (hne : 1 ≤ sc.scRefillCount →
      ordered_disjoint_l (refills_list sc) ∧
        min_budget_l (MIN_BUDGET ctx) (refills_list sc) ∧
        rEnd (REFILL_TAIL sc) ≤ new.rTime ∧
        new.rTime + new.rAmount ≤ (REFILL_HEAD sc).rTime + sc.scPeriod ∧
        sum_amounts (refills_list sc) + new.rAmount ≤ sc.scPeriod) :
    sc_wf (schedule_used ctx sc new) ∧
      ordered_disjoint_l (refills_list (schedule_used ctx sc new)) ∧
      min_budget_l (MIN_BUDGET ctx) (refills_list (schedule_used ctx sc new)) ∧
      sum_amounts (refills_list (schedule_used ctx sc new)) =
        sum_amounts (refills_list sc) + new.rAmount ∧
      within_period_l sc.scPeriod (refills_list (schedule_used ctx sc new)) := by
  obtain ⟨hP, hB, hM, hH⟩ := schedule_used_proj ctx sc new
  by_cases hc0 : sc.scRefillCount = 0
  · obtain ⟨hmb, hper⟩ := hempty hc0
    obtain ⟨hlist, hcount⟩ := schedule_used_empty_char ctx sc new hc0 hh
    refine ⟨⟨?_, ?_, ?_⟩, ?_, ?_, ?_, ?_⟩
    · rw [hH, hM]; exact hh
    · rw [hcount]
    · rw [hcount, hM]; omega
    · rw [hlist]; exact List.chain'_singleton new
    · rw [hlist]; intro r hr; simp at hr; subst hr; exact hmb
    · rw [hlist, refills_list_count_zero sc hc0]; simp
    · rw [hlist, within_period_iff]
      simp only [listEnd, listStart, List.getLast?_singleton, List.head?_cons,
        Option.getD_some, rEnd]
      omega
  · have hc : 1 ≤ sc.scRefillCount := by omega
    obtain ⟨hchain, hmin, hend_le, hnew_end, hsum_per⟩ := hne hc
    have hlne : refills_list sc ≠ [] := refills_list_ne_nil sc hc
    have hglast := getLast?_refills_list sc hh hc hcm
    have hdecomp : (refills_list sc).dropLast ++ [REFILL_TAIL sc] = refills_list sc := by
      have h := dropLast_concat_getD (refills_list sc) hlne ⟨0, 0⟩
      rw [hglast] at h
      simpa using h
    have hchain_drop : ordered_disjoint_l (refills_list sc).dropLast :=
      List.Chain'.init hchain
    have hlink : ∀ x ∈ (refills_list sc).dropLast.getLast?,
        refill_disjoint x (REFILL_TAIL sc) := by
      have h2 : List.Chain' refill_disjoint
          ((refills_list sc).dropLast ++ [REFILL_TAIL sc]) := by
        rw [hdecomp]; exact hchain
      have h3 := (List.chain'_append.mp h2).2.2
      intro x hx
      exact h3 x hx (REFILL_TAIL sc) rfl
    have hmin_drop : min_budget_l (MIN_BUDGET ctx) (refills_list sc).dropLast := by
      intro r hr
      exact hmin r (by rw [← hdecomp]; exact List.mem_append_left _ hr)
    have hmin_tail : MIN_BUDGET ctx ≤ (REFILL_TAIL sc).rAmount :=
      hmin _ (tail_mem_refills_list sc hh hc hcm)
    have hsum_decomp : sum_amounts (refills_list sc).dropLast +
        (REFILL_TAIL sc).rAmount = sum_amounts (refills_list sc) := by
      conv_rhs => rw [← hdecomp]
      simp
    have hstart : listStart (refills_list sc) = (REFILL_HEAD sc).rTime :=
      listStart_refills_list sc hh hc
    have hlen : (refills_list sc).length = sc.scRefillCount := length_refills_list sc
    have htl_end : (REFILL_TAIL sc).rTime + (REFILL_TAIL sc).rAmount ≤ new.rTime := hend_le
    have hsing : sc.scRefillCount = 1 → refills_list sc = [REFILL_TAIL sc] := by
      intro h1
      have hd : (refills_list sc).dropLast = [] :=
        dropLast_eq_nil_of_short _ (by omega)
      rw [← hdecomp, hd]
      rfl
    have hsingHT : sc.scRefillCount = 1 →
        (REFILL_HEAD sc).rTime = (REFILL_TAIL sc).rTime := by
      intro h1
      have h2 := head?_refills_list sc hh hc
      rw [hsing h1] at h2
      simp at h2
      rw [h2]
    by_cases hs1 : new.rAmount < MIN_BUDGET ctx ∧ sc.scRefillCount ≠ sc.scRefillMax ∧
        2 * MIN_BUDGET ctx ≤ (REFILL_TAIL sc).rAmount + new.rAmount
    · obtain ⟨ha, hb, hc3⟩ := hs1
      obtain ⟨hlist, hcount⟩ := schedule_used_split_char ctx sc new hh hc hcm ha hb hc3
      have hrle : MIN_BUDGET ctx - new.rAmount ≤ (REFILL_TAIL sc).rAmount := by omega
      have hrnew : MIN_BUDGET ctx - new.rAmount ≤ new.rTime := by
        unfold rEnd at hend_le
        omega
      have hassoc : (refills_list sc).dropLast ++
          [(⟨(REFILL_TAIL sc).rTime,
            (REFILL_TAIL sc).rAmount - (MIN_BUDGET ctx - new.rAmount)⟩ : refill_t),
           ⟨new.rTime - (MIN_BUDGET ctx - new.rAmount),
            new.rAmount + (MIN_BUDGET ctx - new.rAmount)⟩] =
          ((refills_list sc).dropLast ++
            [⟨(REFILL_TAIL sc).rTime,
              (REFILL_TAIL sc).rAmount - (MIN_BUDGET ctx - new.rAmount)⟩]) ++
            [⟨new.rTime - (MIN_BUDGET ctx - new.rAmount),
              new.rAmount + (MIN_BUDGET ctx - new.rAmount)⟩] := by
        simp
      refine ⟨⟨?_, ?_, ?_⟩, ?_, ?_, ?_, ?_⟩
      · rw [hH, hM]; exact hh
      · rw [hcount]; omega
      · rw [hcount, hM]; omega
      · rw [hlist]
        show List.Chain' refill_disjoint _
        rw [List.chain'_append]
        refine ⟨hchain_drop, ?_, ?_⟩
        · refine List.chain'_cons.mpr ⟨?_, List.chain'_singleton _⟩
          show (REFILL_TAIL sc).rTime +
            ((REFILL_TAIL sc).rAmount - (MIN_BUDGET ctx - new.rAmount)) ≤
            new.rTime - (MIN_BUDGET ctx - new.rAmount)
          unfold rEnd at hend_le
          omega
        · intro x hx y hy
          simp at hy
          subst hy
          have := hlink x hx
          unfold refill_disjoint at this ⊢
          simpa using this
      · rw [hlist]
        intro rr hmem
        rcases List.mem_append.mp hmem with hmem1 | hmem2
        · exact hmin_drop rr hmem1
        · simp at hmem2
          rcases hmem2 with h | h <;> subst h <;> simp <;> omega
      · rw [hlist]
        simp only [sum_amounts_append, sum_amounts_cons, sum_amounts_nil]
        omega
      · rw [hlist, within_period_iff, hassoc, listEnd_concat]
        by_cases hc2 : 2 ≤ sc.scRefillCount
        · rw [List.append_assoc]
          rw [listStart_dropLast_append_two _ _ (by omega)]
          unfold rEnd
          dsimp only
          omega
        · have h1 : sc.scRefillCount = 1 := by omega
          have hd : (refills_list sc).dropLast = [] :=
            dropLast_eq_nil_of_short _ (by omega)
          rw [hd]
          simp only [List.nil_append, List.cons_append, listStart_cons]
          have hht := hsingHT h1
          unfold rEnd
          dsimp only
          omega
    · by_cases hs2 : new.rAmount < MIN_BUDGET ctx ∨ sc.scRefillCount = sc.scRefillMax
      · have hsplit' : ¬ (new.rAmount < MIN_BUDGET ctx ∧ ¬ refill_full sc ∧
            2 * MIN_BUDGET ctx ≤ (REFILL_TAIL sc).rAmount + new.rAmount) := by
          intro hx
          exact hs1 ⟨hx.1, hx.2.1, hx.2.2⟩
        obtain ⟨hlist, hcount⟩ :=
          schedule_used_merge_char ctx sc new hh hc hcm hsplit' hs2
        have htlam : (REFILL_TAIL sc).rAmount ≤ new.rTime := by
          unfold rEnd at hend_le
          omega
        refine ⟨⟨?_, ?_, ?_⟩, ?_, ?_, ?_, ?_⟩
        · rw [hH, hM]; exact hh
        · rw [hcount]; omega
        · rw [hcount, hM]; omega
        · rw [hlist]
          show List.Chain' refill_disjoint _
          rw [List.chain'_append]
          refine ⟨hchain_drop, List.chain'_singleton _, ?_⟩
          intro x hx y hy
          simp at hy
          subst hy
          have := hlink x hx
          unfold refill_disjoint at this ⊢
          simp only []
          omega
        · rw [hlist]
          intro rr hmem
          rcases List.mem_append.mp hmem with hmem1 | hmem2
          · exact hmin_drop rr hmem1
          · simp at hmem2
            subst hmem2
            simp
            omega
        · rw [hlist]
          simp only [sum_amounts_append, sum_amounts_cons, sum_amounts_nil]
          omega
        · rw [hlist, within_period_iff, listEnd_concat]
          by_cases hc2 : 2 ≤ sc.scRefillCount
          · rw [listStart_dropLast_append_two _ _ (by omega)]
            unfold rEnd
            simp only []
            omega
          · have h1 : sc.scRefillCount = 1 := by omega
            have hd : (refills_list sc).dropLast = [] :=
              dropLast_eq_nil_of_short _ (by omega)
            have hsum1 : (REFILL_TAIL sc).rAmount = sum_amounts (refills_list sc) := by
              rw [← hsum_decomp, hd]
              simp
            rw [hd]
            simp only [List.nil_append, listStart_cons]
            unfold rEnd
            simp only []
            omega
      · have hpush1 : ¬ new.rAmount < MIN_BUDGET ctx := fun hx => hs2 (Or.inl hx)
        have hpush2 : sc.scRefillCount ≠ sc.scRefillMax := fun hx => hs2 (Or.inr hx)
        obtain ⟨hlist, hcount⟩ :=
          schedule_used_push_char ctx sc new hh hc hcm hpush1 hpush2
        refine ⟨⟨?_, ?_, ?_⟩, ?_, ?_, ?_, ?_⟩
        · rw [hH, hM]; exact hh
        · rw [hcount]; omega
        · rw [hcount, hM]; omega
        · rw [hlist]
          show List.Chain' refill_disjoint _
          rw [List.chain'_append]
          refine ⟨hchain, List.chain'_singleton _, ?_⟩
          intro x hx y hy
          simp at hy
          subst hy
          rw [hglast] at hx
          simp at hx
          subst hx
          exact hend_le
        · rw [hlist]
          intro rr hmem
          rcases List.mem_append.mp hmem with hmem1 | hmem2
          · exact hmin rr hmem1
          · simp at hmem2
            subst hmem2
            omega
        · rw [hlist]
          simp only [sum_amounts_append, sum_amounts_cons, sum_amounts_nil]
          omega
        · rw [hlist, within_period_iff, listEnd_concat,
            listStart_append_left _ _ hlne]
          unfold rEnd
          omega

theorem listEnd_cons_of_ne_nil (a : refill_t) (l : List refill_t) (h : l ≠ []) :
    listEnd (a :: l) = listEnd l := by
  obtain ⟨b, t, rfl⟩ := exists_cons_of_ne_nil h
  exact listEnd_cons_cons a b t

theorem REFILL_HEAD_eq_of_list (sc : sched_context_t)
    (hh : sc.scRefillHead < sc.scRefillMax) (hc : 1 ≤ sc.scRefillCount)
    (a : refill_t) (rest : List refill_t) (h : refills_list sc = a :: rest) :
    REFILL_HEAD sc = a := by
  have h2 := head?_refills_list sc hh hc
  rw [h] at h2
  simp at h2
  rw [h2]

/-- `refill_budget_check` preserves well-formedness and the five universal
invariants, for every charged `usage`. -/
theorem refill_budget_check_ok (ctx : Ctx) (sc : sched_context_t) (usage : Nat)
    (hwf : sc_wf sc) (hinv : sc_invariants ctx sc) :
    sc_wf (refill_budget_check ctx sc usage) ∧
      sc_invariants ctx (refill_budget_check ctx sc usage) := by
  obtain ⟨hh, hc, hcm⟩ := hwf
  have hinv' := hinv
  obtain ⟨hchain, hmin, hsum, hwindow, _⟩ := hinv'
  have hmax : 1 ≤ sc.scRefillMax := by omega
  have hbp := (sum_le_period ctx sc ⟨hh, hc, hcm⟩ hinv).1
  have hlne := refills_list_ne_nil sc hc
  obtain ⟨H, t, hlshape⟩ := exists_cons_of_ne_nil hlne
  have hHeq : REFILL_HEAD sc = H := REFILL_HEAD_eq_of_list sc hh hc H t hlshape
  rw [← hHeq] at hlshape
  clear hHeq
  rw [hlshape] at hchain hmin hsum
  have hminH : MIN_BUDGET ctx ≤ (REFILL_HEAD sc).rAmount := hmin _ (by simp)
  have hmin_t : min_budget_l (MIN_BUDGET ctx) t := fun r hr => hmin r (by simp [hr])
  have hchain_t : List.Chain' refill_disjoint t := List.Chain'.tail hchain
  have hsum_cons : (REFILL_HEAD sc).rAmount + sum_amounts t = sc.scBudget := by
    rw [← hsum]; simp
  have hwin : listEnd (refills_list sc) ≤ (REFILL_HEAD sc).rTime + sc.scPeriod := by
    rw [within_period_iff] at hwindow
    rw [listStart_refills_list sc hh hc] at hwindow
    exact hwindow
  have hlen_t : t.length + 1 = sc.scRefillCount := by
    have hlen := length_refills_list sc
    rw [hlshape] at hlen
    simpa using hlen
  simp only [refill_budget_check]
  by_cases h1 : ¬ refill_ready ctx sc ∨ (REFILL_HEAD sc).rAmount < usage
  · rw [if_pos h1]
    obtain ⟨hokwf, hokchain, hokmin, hoksum, hokwithin⟩ :=
      schedule_used_ok ctx { sc with scRefillCount := 0 }
        ⟨(REFILL_HEAD sc).rTime + sc.scPeriod + usage, sc.scBudget⟩
        hh (by show (0 : Nat) ≤ sc.scRefillMax; omega) hmax
        (fun _ => ⟨by show MIN_BUDGET ctx ≤ sc.scBudget; omega,
                   by show sc.scBudget ≤ sc.scPeriod; omega⟩)
        (fun hcontra => absurd (show (1 : Nat) ≤ 0 from hcontra) (by omega))
    obtain ⟨hP', hB', _, _⟩ := schedule_used_proj ctx { sc with scRefillCount := 0 }
      ⟨(REFILL_HEAD sc).rTime + sc.scPeriod + usage, sc.scBudget⟩
    refine ⟨hokwf, hokchain, hokmin, ?_, ?_, hokwf.2.2⟩
    · rw [hoksum, hB', refills_list_count_zero { sc with scRefillCount := 0 } rfl]
      show sum_amounts [] + sc.scBudget = sc.scBudget
      simp [sum_amounts]
    · rw [hP']
      exact hokwithin
  · push_neg at h1
    obtain ⟨hready, husage⟩ := h1
    rw [if_neg (by push_neg; exact ⟨hready, husage⟩)]
    by_cases h2 : usage = (REFILL_HEAD sc).rAmount
    · rw [if_pos h2]
      have hh₁ := pop_head_lt sc hh
      have hlist₁ : refills_list (refill_pop_head sc).2 = t := by
        rw [refills_list_pop sc hh hc, hlshape]
        rfl
      have hne : 1 ≤ (refill_pop_head sc).2.scRefillCount →
          ordered_disjoint_l (refills_list (refill_pop_head sc).2) ∧
            min_budget_l (MIN_BUDGET ctx) (refills_list (refill_pop_head sc).2) ∧
            rEnd (REFILL_TAIL (refill_pop_head sc).2) ≤
              (REFILL_HEAD sc).rTime + sc.scPeriod ∧
            ((REFILL_HEAD sc).rTime + sc.scPeriod) + usage ≤
              (REFILL_HEAD (refill_pop_head sc).2).rTime +
                (refill_pop_head sc).2.scPeriod ∧
            sum_amounts (refills_list (refill_pop_head sc).2) + usage ≤
              (refill_pop_head sc).2.scPeriod := by
        intro hc₁
        have hc₁' : 1 ≤ sc.scRefillCount - 1 := hc₁
        have htne : t ≠ [] := by
          intro hx
          rw [hx] at hlen_t
          simp at hlen_t
          omega
        obtain ⟨G, u, htshape⟩ := exists_cons_of_ne_nil htne
        have hGeq : REFILL_HEAD (refill_pop_head sc).2 = G := by
          apply REFILL_HEAD_eq_of_list _ hh₁ hc₁ G u
          rw [hlist₁, htshape]
        have hfirst : refill_disjoint (REFILL_HEAD sc) G := by
          rw [htshape] at hchain
          exact (List.chain'_cons.mp hchain).1
        have hE : listEnd (refills_list (refill_pop_head sc).2) =
            rEnd (REFILL_TAIL (refill_pop_head sc).2) :=
          listEnd_refills_list _ hh₁ hc₁ (by show sc.scRefillCount - 1 ≤ sc.scRefillMax; omega)
        rw [hlist₁] at hE
        have hEl : listEnd t = listEnd (refills_list sc) := by
          rw [hlshape, listEnd_cons_of_ne_nil _ _ htne]
        refine ⟨by rw [hlist₁]; exact hchain_t, by rw [hlist₁]; exact hmin_t,
          ?_, ?_, ?_⟩
        · rw [← hE, hEl]
          omega
        · rw [hGeq]
          show _ ≤ G.rTime + sc.scPeriod
          unfold refill_disjoint at hfirst
          omega
        · rw [hlist₁]
          show sum_amounts t + usage ≤ sc.scPeriod
          omega
      obtain ⟨hokwf, hokchain, hokmin, hoksum, hokwithin⟩ :=
        schedule_used_ok ctx (refill_pop_head sc).2
          ⟨(REFILL_HEAD sc).rTime + sc.scPeriod, usage⟩
          hh₁ (by show sc.scRefillCount - 1 ≤ sc.scRefillMax; omega) hmax
          (fun _ => ⟨by show MIN_BUDGET ctx ≤ usage; omega,
                     by show usage ≤ sc.scPeriod; omega⟩)
          hne
      obtain ⟨hP', hB', _, _⟩ := schedule_used_proj ctx (refill_pop_head sc).2
        ⟨(REFILL_HEAD sc).rTime + sc.scPeriod, usage⟩
      refine ⟨hokwf, hokchain, hokmin, ?_, ?_, hokwf.2.2⟩
      · rw [hoksum, hB', hlist₁]
        show sum_amounts t + usage = sc.scBudget
        omega
      · rw [hP']
        exact hokwithin
    · rw [if_neg h2]
      have husage' : usage < (REFILL_HEAD sc).rAmount := by omega
      by_cases h3 : (REFILL_HEAD sc).rAmount - usage ≥ MIN_BUDGET ctx
      · rw [if_pos h3]
        have hlist₁ : refills_list (update_refill sc sc.scRefillHead
            ⟨(REFILL_HEAD sc).rTime + usage, (REFILL_HEAD sc).rAmount - usage⟩) =
            ⟨(REFILL_HEAD sc).rTime + usage, (REFILL_HEAD sc).rAmount - usage⟩ :: t := by
          rw [refills_list_set_head sc _ hh hc hcm, hlshape]
          rfl
        set sc₁ := update_refill sc sc.scRefillHead
          ⟨(REFILL_HEAD sc).rTime + usage, (REFILL_HEAD sc).rAmount - usage⟩ with hsc₁
        have hh₁ : sc₁.scRefillHead < sc₁.scRefillMax := by
          rw [hsc₁]; simpa using hh
        have hc₁ : 1 ≤ sc₁.scRefillCount := by rw [hsc₁]; simpa using hc
        have hcm₁ : sc₁.scRefillCount ≤ sc₁.scRefillMax := by rw [hsc₁]; simpa using hcm
        have hH₁ : REFILL_HEAD sc₁ =
            ⟨(REFILL_HEAD sc).rTime + usage, (REFILL_HEAD sc).rAmount - usage⟩ :=
          REFILL_HEAD_eq_of_list sc₁ hh₁ hc₁ _ t hlist₁
        have hne : 1 ≤ sc₁.scRefillCount →
            ordered_disjoint_l (refills_list sc₁) ∧
              min_budget_l (MIN_BUDGET ctx) (refills_list sc₁) ∧
              rEnd (REFILL_TAIL sc₁) ≤ (REFILL_HEAD sc).rTime + sc.scPeriod ∧
              ((REFILL_HEAD sc).rTime + sc.scPeriod) + usage ≤
                (REFILL_HEAD sc₁).rTime + sc₁.scPeriod ∧
              sum_amounts (refills_list sc₁) + usage ≤ sc₁.scPeriod := by
          intro _
          have hE : listEnd (refills_list sc₁) = rEnd (REFILL_TAIL sc₁) :=
            listEnd_refills_list sc₁ hh₁ hc₁ hcm₁
          rw [hlist₁] at hE
          refine ⟨?_, ?_, ?_, ?_, ?_⟩
          · rw [hlist₁]
            cases t with
            | nil => exact List.chain'_singleton _
            | cons G u =>
              refine List.chain'_cons.mpr ⟨?_, ?_⟩
              · have hfirst : refill_disjoint (REFILL_HEAD sc) G :=
                  (List.chain'_cons.mp hchain).1
                unfold refill_disjoint at hfirst ⊢
                show (REFILL_HEAD sc).rTime + usage +
                  ((REFILL_HEAD sc).rAmount - usage) ≤ G.rTime
                omega
              · exact hchain_t
          · rw [hlist₁]
            intro r hr
            rcases List.mem_cons.mp hr with hr1 | hr2
            · subst hr1
              show MIN_BUDGET ctx ≤ (REFILL_HEAD sc).rAmount - usage
              omega
            · exact hmin_t r hr2
          · rw [← hE]
            cases t with
            | nil =>
              simp only [listEnd, List.getLast?_singleton, Option.getD_some, rEnd]
              show (REFILL_HEAD sc).rTime + usage +
                ((REFILL_HEAD sc).rAmount - usage) ≤
                (REFILL_HEAD sc).rTime + sc.scPeriod
              omega
            | cons G u =>
              rw [listEnd_cons_of_ne_nil _ _ (by simp)]
              have hEl : listEnd (G :: u) = listEnd (refills_list sc) := by
                rw [hlshape]
                exact (listEnd_cons_of_ne_nil _ _ (by simp)).symm
              rw [hEl]
              omega
          · rw [hH₁]
            show (REFILL_HEAD sc).rTime + sc.scPeriod + usage ≤
              (REFILL_HEAD sc).rTime + usage + sc₁.scPeriod
            rw [hsc₁]
            show _ ≤ (REFILL_HEAD sc).rTime + usage + sc.scPeriod
            omega
          · rw [hlist₁]
            show (REFILL_HEAD sc).rAmount - usage + sum_amounts t + usage ≤
              sc₁.scPeriod
            rw [hsc₁]
            show _ ≤ sc.scPeriod
            omega
        obtain ⟨hokwf, hokchain, hokmin, hoksum, hokwithin⟩ :=
          schedule_used_ok ctx sc₁ ⟨(REFILL_HEAD sc).rTime + sc.scPeriod, usage⟩
            hh₁ hcm₁ (by rw [hsc₁]; simpa using hmax) (fun hc0 => absurd hc0 (by omega))
            hne
        obtain ⟨hP', hB', _, _⟩ := schedule_used_proj ctx sc₁
          ⟨(REFILL_HEAD sc).rTime + sc.scPeriod, usage⟩
        refine ⟨hokwf, hokchain, hokmin, ?_, ?_, hokwf.2.2⟩
        · rw [hoksum, hB', hlist₁]
          show (REFILL_HEAD sc).rAmount - usage + sum_amounts t + usage = sc₁.scBudget
          rw [hsc₁]
          show _ = sc.scBudget
          omega
        · rw [hP']
          exact hokwithin
      · rw [if_neg h3]
        have hrem : (REFILL_HEAD sc).rAmount - usage < MIN_BUDGET ctx := by omega
        by_cases h4 : refill_empty (refill_pop_head sc).2
        · rw [if_pos h4]
          have hc1 : sc.scRefillCount = 1 := by
            have : sc.scRefillCount - 1 = 0 := h4
            omega
          have htnil : t = [] := by
            rw [hc1] at hlen_t
            simpa using List.eq_nil_of_length_eq_zero (by omega)
          have hbudH : (REFILL_HEAD sc).rAmount = sc.scBudget := by
            rw [htnil] at hsum_cons
            simpa using hsum_cons
          obtain ⟨hokwf, hokchain, hokmin, hoksum, hokwithin⟩ :=
            schedule_used_ok ctx (refill_pop_head sc).2
              ⟨(REFILL_HEAD sc).rTime + sc.scPeriod -
                  ((REFILL_HEAD sc).rAmount - usage),
                usage + ((REFILL_HEAD sc).rAmount - usage)⟩
              (pop_head_lt sc hh)
              (by show sc.scRefillCount - 1 ≤ sc.scRefillMax; omega) hmax
              (fun _ => ⟨by show MIN_BUDGET ctx ≤
                  usage + ((REFILL_HEAD sc).rAmount - usage); omega,
                by show usage + ((REFILL_HEAD sc).rAmount - usage) ≤ sc.scPeriod
                   omega⟩)
              (fun hcontra => absurd hcontra (by
                show ¬ 1 ≤ sc.scRefillCount - 1
                omega))
          obtain ⟨hP', hB', _, _⟩ := schedule_used_proj ctx (refill_pop_head sc).2
            ⟨(REFILL_HEAD sc).rTime + sc.scPeriod -
                ((REFILL_HEAD sc).rAmount - usage),
              usage + ((REFILL_HEAD sc).rAmount - usage)⟩
          refine ⟨hokwf, hokchain, hokmin, ?_, ?_, hokwf.2.2⟩
          · rw [hoksum, hB', refills_list_pop sc hh hc, hlshape]
            show sum_amounts ((REFILL_HEAD sc :: t).tail) +
              (usage + ((REFILL_HEAD sc).rAmount - usage)) = sc.scBudget
            rw [htnil]
            show sum_amounts [] + _ = _
            simp only [sum_amounts_nil]
            omega
          · rw [hP']
            exact hokwithin
        · rw [if_neg h4]
          have hc2 : 2 ≤ sc.scRefillCount := by
            have : ¬ sc.scRefillCount - 1 = 0 := h4
            omega
          have hh₁ := pop_head_lt sc hh
          have hc₁ : 1 ≤ (refill_pop_head sc).2.scRefillCount := by
            show 1 ≤ sc.scRefillCount - 1; omega
          have hcm₁ : (refill_pop_head sc).2.scRefillCount ≤
              (refill_pop_head sc).2.scRefillMax := by
            show sc.scRefillCount - 1 ≤ sc.scRefillMax; omega
          have hlist₁ : refills_list (refill_pop_head sc).2 = t := by
            rw [refills_list_pop sc hh hc, hlshape]
            rfl
          have htne : t ≠ [] := by
            intro hx
            rw [hx] at hlen_t
            simp at hlen_t
            omega
          obtain ⟨G, u, htshape⟩ := exists_cons_of_ne_nil htne
          have hGeq : REFILL_HEAD (refill_pop_head sc).2 = G := by
            apply REFILL_HEAD_eq_of_list _ hh₁ hc₁ G u
            rw [hlist₁, htshape]
          have hfirst : refill_disjoint (REFILL_HEAD sc) G := by
            rw [htshape] at hchain
            exact (List.chain'_cons.mp hchain).1
          have hchain_u : List.Chain' refill_disjoint (G :: u) := by
            rw [← htshape]; exact hchain_t
          rw [hGeq]
          set G' : refill_t := ⟨G.rTime - ((REFILL_HEAD sc).rAmount - usage),
            G.rAmount + ((REFILL_HEAD sc).rAmount - usage)⟩ with hG'
          set sc₂ := update_refill (refill_pop_head sc).2
            (refill_pop_head sc).2.scRefillHead G' with hsc₂
          have hlist₂ : refills_list sc₂ = G' :: u := by
            rw [hsc₂, refills_list_set_head _ _ hh₁ hc₁ hcm₁, hlist₁, htshape]
            rfl
          have hh₂ : sc₂.scRefillHead < sc₂.scRefillMax := by
            rw [hsc₂]; simpa using hh₁
          have hc₂ : 1 ≤ sc₂.scRefillCount := by rw [hsc₂]; simpa using hc₁
          have hcm₂ : sc₂.scRefillCount ≤ sc₂.scRefillMax := by
            rw [hsc₂]; simpa using hcm₁
          have hH₂ : REFILL_HEAD sc₂ = G' :=
            REFILL_HEAD_eq_of_list sc₂ hh₂ hc₂ G' u hlist₂
          have hremG : (REFILL_HEAD sc).rAmount - usage ≤ G.rTime := by
            unfold refill_disjoint at hfirst
            omega
          have hne : 1 ≤ sc₂.scRefillCount →
              ordered_disjoint_l (refills_list sc₂) ∧
                min_budget_l (MIN_BUDGET ctx) (refills_list sc₂) ∧
                rEnd (REFILL_TAIL sc₂) ≤ (REFILL_HEAD sc).rTime + sc.scPeriod ∧
                ((REFILL_HEAD sc).rTime + sc.scPeriod) + usage ≤
                  (REFILL_HEAD sc₂).rTime + sc₂.scPeriod ∧
                sum_amounts (refills_list sc₂) + usage ≤ sc₂.scPeriod := by
            intro _
            have hE : listEnd (refills_list sc₂) = rEnd (REFILL_TAIL sc₂) :=
              listEnd_refills_list sc₂ hh₂ hc₂ hcm₂
            rw [hlist₂] at hE
            have hsum_t : G.rAmount + sum_amounts u = sum_amounts t := by
              rw [htshape]; simp
            have hEt : listEnd t = listEnd (refills_list sc) := by
              rw [hlshape, listEnd_cons_of_ne_nil _ _ htne]
            refine ⟨?_, ?_, ?_, ?_, ?_⟩
            · rw [hlist₂]
              cases u with
              | nil => exact List.chain'_singleton _
              | cons x v =>
                refine List.chain'_cons.mpr ⟨?_, (List.chain'_cons.mp hchain_u).2⟩
                have hGx : refill_disjoint G x := (List.chain'_cons.mp hchain_u).1
                unfold refill_disjoint at hGx ⊢
                rw [hG']
                show G.rTime - ((REFILL_HEAD sc).rAmount - usage) +
                  (G.rAmount + ((REFILL_HEAD sc).rAmount - usage)) ≤ x.rTime
                omega
            · rw [hlist₂]
              intro r hr
              rcases List.mem_cons.mp hr with hr1 | hr2
              · subst hr1
                rw [hG']
                show MIN_BUDGET ctx ≤ G.rAmount + ((REFILL_HEAD sc).rAmount - usage)
                have := hmin_t G (by rw [htshape]; simp)
                omega
              · exact hmin_t r (by rw [htshape]; simp [hr2])
            · rw [← hE]
              cases u with
              | nil =>
                have hGt : listEnd t = rEnd G := by
                  rw [htshape]
                  simp [listEnd, rEnd]
                rw [hG']
                show listEnd [(⟨G.rTime - ((REFILL_HEAD sc).rAmount - usage),
                  G.rAmount + ((REFILL_HEAD sc).rAmount - usage)⟩ : refill_t)] ≤ _
                simp only [listEnd, List.getLast?_singleton, Option.getD_some, rEnd]
                show G.rTime - ((REFILL_HEAD sc).rAmount - usage) +
                  (G.rAmount + ((REFILL_HEAD sc).rAmount - usage)) ≤ _
                rw [hGt] at hEt
                unfold rEnd at hEt
                omega
              | cons x v =>
                rw [listEnd_cons_of_ne_nil _ _ (by simp)]
                have hxv : listEnd (x :: v) = listEnd t := by
                  rw [htshape]
                  exact (listEnd_cons_of_ne_nil _ _ (by simp)).symm
                rw [hxv, hEt]
                omega
            · rw [hH₂, hG']
              show (REFILL_HEAD sc).rTime + sc.scPeriod + usage ≤
                G.rTime - ((REFILL_HEAD sc).rAmount - usage) + sc₂.scPeriod
              have hper₂ : sc₂.scPeriod = sc.scPeriod := by rw [hsc₂]; rfl
              rw [hper₂]
              unfold refill_disjoint at hfirst
              omega
            · rw [hlist₂]
              have hper₂ : sc₂.scPeriod = sc.scPeriod := by rw [hsc₂]; rfl
              rw [hper₂]
              rw [hG']
              show G.rAmount + ((REFILL_HEAD sc).rAmount - usage) +
                sum_amounts u + usage ≤ sc.scPeriod
              have hsum_t' := hsum_t
              omega
          obtain ⟨hokwf, hokchain, hokmin, hoksum, hokwithin⟩ :=
            schedule_used_ok ctx sc₂ ⟨(REFILL_HEAD sc).rTime + sc.scPeriod, usage⟩
              hh₂ hcm₂ (by rw [hsc₂]; simpa using hmax)
              (fun hc0 => absurd hc0 (by omega)) hne
          obtain ⟨hP', hB', _, _⟩ := schedule_used_proj ctx sc₂
            ⟨(REFILL_HEAD sc).rTime + sc.scPeriod, usage⟩
          refine ⟨hokwf, hokchain, hokmin, ?_, ?_, hokwf.2.2⟩
          · rw [hoksum, hB', hlist₂]
            have hbud₂ : sc₂.scBudget = sc.scBudget := by rw [hsc₂]; rfl
            rw [hbud₂, hG']
            show G.rAmount + ((REFILL_HEAD sc).rAmount - usage) +
              sum_amounts u + usage = sc.scBudget
            have hsum_t : G.rAmount + sum_amounts u = sum_amounts t := by
              rw [htshape]; simp
            omega
          · rw [hP']
            exact hokwithin

/-! ### The coalescing loop of `refill_unblock_check` -/

@[simp] theorem merge_step_scPeriod (ctx : Ctx) (sc : sched_context_t) :
    (merge_step ctx sc).scPeriod = sc.scPeriod := rfl

@[simp] theorem merge_step_scBudget (ctx : Ctx) (sc : sched_context_t) :
    (merge_step ctx sc).scBudget = sc.scBudget := rfl

@[simp] theorem merge_step_scRefillMax (ctx : Ctx) (sc : sched_context_t) :
    (merge_step ctx sc).scRefillMax = sc.scRefillMax := rfl

@[simp] theorem merge_step_scRefillCount (ctx : Ctx) (sc : sched_context_t) :
    (merge_step ctx sc).scRefillCount = sc.scRefillCount - 1 := rfl

/-- The refill the loop guard inspects is the second element of the queue. -/
theorem REFILL_INDEX_next_eq (sc : sched_context_t)
    (hh : sc.scRefillHead < sc.scRefillMax)
    (_hcm : sc.scRefillCount ≤ sc.scRefillMax)
    (a G : refill_t) (u : List refill_t)
    (hlshape : refills_list sc = a :: G :: u) :
    REFILL_INDEX sc (refill_next sc sc.scRefillHead) = G := by
  have hc2 : 2 ≤ sc.scRefillCount := by
    have := length_refills_list sc
    rw [hlshape] at this
    simp at this
    omega
  have h1 : (refills_list sc)[1]? = some G := by
    rw [hlshape]
    simp
  have h2 : (refills_list sc)[1]? =
      some (sc.scRefills ((sc.scRefillHead + 1) % sc.scRefillMax)) := by
    unfold refills_list
    rw [List.getElem?_map, List.getElem?_range (by omega : 1 < sc.scRefillCount)]
    rfl
  rw [REFILL_INDEX, refill_next_eq_mod sc _ hh]
  rw [h1] at h2
  exact (Option.some.inj h2).symm

theorem refills_list_merge_step (ctx : Ctx) (sc : sched_context_t)
    (hh : sc.scRefillHead < sc.scRefillMax) (hc2 : 2 ≤ sc.scRefillCount)
    (hcm : sc.scRefillCount ≤ sc.scRefillMax)
    (a G : refill_t) (u : List refill_t)
    (hlshape : refills_list sc = a :: G :: u) :
    refills_list (merge_step ctx sc) =
      (⟨ctx.ksCurTime + ctx.kernelWcetTicks,
        G.rAmount + (REFILL_HEAD sc).rAmount⟩ : refill_t) :: u := by
  have hh₁ := pop_head_lt sc hh
  have hc₁ : 1 ≤ (refill_pop_head sc).2.scRefillCount := by
    show 1 ≤ sc.scRefillCount - 1; omega
  have hcm₁ : (refill_pop_head sc).2.scRefillCount ≤
      (refill_pop_head sc).2.scRefillMax := by
    show sc.scRefillCount - 1 ≤ sc.scRefillMax; omega
  have hlist₁ : refills_list (refill_pop_head sc).2 = G :: u := by
    rw [refills_list_pop sc hh (by omega), hlshape]
    rfl
  have hGeq : REFILL_HEAD (refill_pop_head sc).2 = G :=
    REFILL_HEAD_eq_of_list _ hh₁ hc₁ G u hlist₁
  show refills_list (update_refill (refill_pop_head sc).2
    (refill_pop_head sc).2.scRefillHead
    ⟨ctx.ksCurTime + ctx.kernelWcetTicks,
      (REFILL_HEAD (refill_pop_head sc).2).rAmount + (REFILL_HEAD sc).rAmount⟩) = _
  rw [refills_list_set_head _ _ hh₁ hc₁ hcm₁, hlist₁, hGeq]
  rfl

/-- Loop invariant proof for the coalescing loop: starting from a queue whose
head begins at `now + wcet` and whose tail (after the head) is still ordered
and disjoint, the loop restores all invariants, keeps the sum, and leaves the
head starting at `now + wcet`.  The fuel never runs out because every
iteration pops one refill. -/
theorem merge_overlapping_go_ok (ctx : Ctx) : ∀ (fuel : Nat) (sc : sched_context_t),
    sc.scRefillCount ≤ fuel →
    sc.scRefillHead < sc.scRefillMax →
    1 ≤ sc.scRefillCount →
    sc.scRefillCount ≤ sc.scRefillMax →
    (REFILL_HEAD sc).rTime = ctx.ksCurTime + ctx.kernelWcetTicks →
    List.Chain' refill_disjoint (refills_list sc).tail →
    min_budget_l (MIN_BUDGET ctx) (refills_list sc) →
    (2 ≤ sc.scRefillCount →
      listEnd (refills_list sc) ≤
        ctx.ksCurTime + ctx.kernelWcetTicks + sc.scPeriod) →
    sum_amounts (refills_list sc) ≤ sc.scPeriod →
    sc_wf (merge_overlapping_go ctx fuel sc) ∧
      ordered_disjoint_l (refills_list (merge_overlapping_go ctx fuel sc)) ∧
      min_budget_l (MIN_BUDGET ctx) (refills_list (merge_overlapping_go ctx fuel sc)) ∧
      sum_amounts (refills_list (merge_overlapping_go ctx fuel sc)) =
        sum_amounts (refills_list sc) ∧
      within_period_l sc.scPeriod (refills_list (merge_overlapping_go ctx fuel sc)) ∧
      (REFILL_HEAD (merge_overlapping_go ctx fuel sc)).rTime =
        ctx.ksCurTime + ctx.kernelWcetTicks ∧
      (merge_overlapping_go ctx fuel sc).scPeriod = sc.scPeriod ∧
      (merge_overlapping_go ctx fuel sc).scBudget = sc.scBudget ∧
      (merge_overlapping_go ctx fuel sc).scRefillMax = sc.scRefillMax := by
  intro fuel
  induction fuel with
  | zero =>
    intro sc hfuel _ hc _ _ _ _ _ _
    omega
  | succ fuel ih =>
    intro sc hfuel hh hc hcm hT hchain_tail hmin hwinT hsum_per
    have hlne := refills_list_ne_nil sc hc
    obtain ⟨H, t, hlshape⟩ := exists_cons_of_ne_nil hlne
    have hHeq : REFILL_HEAD sc = H := REFILL_HEAD_eq_of_list sc hh hc H t hlshape
    rw [← hHeq] at hlshape
    clear hHeq
    have hlen_t : t.length + 1 = sc.scRefillCount := by
      have hlen := length_refills_list sc
      rw [hlshape] at hlen
      simpa using hlen
    rw [show merge_overlapping_go ctx (fuel + 1) sc =
        if merge_guard sc then merge_overlapping_go ctx fuel (merge_step ctx sc) else sc
      from rfl]
    by_cases hg : merge_guard sc
    · rw [if_pos hg]
      obtain ⟨hg1, hg2⟩ := hg
      have hc2 : 2 ≤ sc.scRefillCount := hg1
      have htne : t ≠ [] := by
        intro hx
        rw [hx] at hlen_t
        simp at hlen_t
        omega
      obtain ⟨G, u, htshape⟩ := exists_cons_of_ne_nil htne
      rw [htshape] at hlshape
      have hlist' := refills_list_merge_step ctx sc hh hc2 hcm _ G u hlshape
      have hminH : MIN_BUDGET ctx ≤ (REFILL_HEAD sc).rAmount := by
        apply hmin
        rw [hlshape]
        simp
      have hminG : MIN_BUDGET ctx ≤ G.rAmount := by
        apply hmin
        rw [hlshape]
        simp
      have hsum_shape : (REFILL_HEAD sc).rAmount + (G.rAmount + sum_amounts u) =
          sum_amounts (refills_list sc) := by
        rw [hlshape]
        simp
      have hh' : (merge_step ctx sc).scRefillHead < (merge_step ctx sc).scRefillMax := by
        show (refill_pop_head sc).2.scRefillHead < _
        exact pop_head_lt sc hh
      have hchain_t : List.Chain' refill_disjoint (G :: u) := by
        have htl : (refills_list sc).tail = G :: u := by rw [hlshape]; rfl
        rwa [htl] at hchain_tail
      have ihres := ih (merge_step ctx sc)
        (by show sc.scRefillCount - 1 ≤ fuel; omega)
        hh'
        (by show 1 ≤ sc.scRefillCount - 1; omega)
        (by show sc.scRefillCount - 1 ≤ sc.scRefillMax; omega)
        (by rw [REFILL_HEAD_eq_of_list _ hh' (by show 1 ≤ sc.scRefillCount - 1; omega)
              _ u hlist'])
        (by rw [hlist']
            show List.Chain' refill_disjoint u
            exact List.Chain'.tail hchain_t)
        (by rw [hlist']
            intro r hr
            rcases List.mem_cons.mp hr with hr1 | hr2
            · subst hr1
              show MIN_BUDGET ctx ≤ G.rAmount + (REFILL_HEAD sc).rAmount
              omega
            · apply hmin
              rw [hlshape]
              simp [hr2])
        (by intro hc2'
            have hc2'' : 2 ≤ sc.scRefillCount - 1 := hc2'
            have hune : u ≠ [] := by
              intro hx
              rw [htshape, hx] at hlen_t
              simp at hlen_t
              omega
            rw [hlist', listEnd_cons_of_ne_nil _ _ hune]
            have h1 : listEnd u = listEnd (refills_list sc) := by
              rw [hlshape, listEnd_cons_of_ne_nil _ _ (by simp),
                listEnd_cons_of_ne_nil _ _ hune]
            rw [h1]
            show _ ≤ _ + sc.scPeriod
            exact hwinT hc2)
        (by rw [hlist']
            show G.rAmount + (REFILL_HEAD sc).rAmount + sum_amounts u ≤
              (merge_step ctx sc).scPeriod
            rw [merge_step_scPeriod]
            omega)
      obtain ⟨ihwf, ihchain, ihmin, ihsum, ihwin, ihT, ihP, ihB, ihM⟩ := ihres
      refine ⟨ihwf, ihchain, ihmin, ?_, ?_, ihT, ?_, ?_, ?_⟩
      · rw [ihsum, hlist']
        show G.rAmount + (REFILL_HEAD sc).rAmount + sum_amounts u = _
        omega
      · rw [merge_step_scPeriod] at ihwin
        exact ihwin
      · rw [ihP, merge_step_scPeriod]
      · rw [ihB, merge_step_scBudget]
      · rw [ihM, merge_step_scRefillMax]
    · rw [if_neg hg]
      have hguard : ¬ (1 < sc.scRefillCount ∧
          (REFILL_INDEX sc (refill_next sc sc.scRefillHead)).rTime ≤
            (REFILL_HEAD sc).rTime + (REFILL_HEAD sc).rAmount) := hg
      refine ⟨⟨hh, hc, hcm⟩, ?_, hmin, rfl, ?_, hT, rfl, rfl, rfl⟩
      · rw [hlshape]
        cases t with
        | nil => exact List.chain'_singleton _
        | cons G u =>
          have hc2 : 2 ≤ sc.scRefillCount := by
            rw [← hlen_t]
            simp
          have hGidx : REFILL_INDEX sc (refill_next sc sc.scRefillHead) = G :=
            REFILL_INDEX_next_eq sc hh hcm _ G u (by rw [hlshape])
          have hnotle : ¬ G.rTime ≤ (REFILL_HEAD sc).rTime + (REFILL_HEAD sc).rAmount := by
            intro hle
            exact hguard ⟨by omega, by rw [hGidx]; exact hle⟩
          refine List.chain'_cons.mpr ⟨?_, ?_⟩
          · unfold refill_disjoint
            omega
          · have htl : (refills_list sc).tail = G :: u := by rw [hlshape]; rfl
            rwa [htl] at hchain_tail
      · rw [within_period_iff]
        cases t with
        | nil =>
          rw [hlshape]
          simp only [listEnd, listStart, List.getLast?_singleton, List.head?_cons,
            Option.getD_some, rEnd]
          have hsum1 : sum_amounts (refills_list sc) = (REFILL_HEAD sc).rAmount := by
            rw [hlshape]
            simp
          omega
        | cons G u =>
          have hc2 : 2 ≤ sc.scRefillCount := by
            rw [← hlen_t]
            simp
          have h1 : listStart (refills_list sc) = (REFILL_HEAD sc).rTime :=
            listStart_refills_list sc hh hc
          have h2 := hwinT hc2
          omega

/-- `refill_unblock_check` on a non-round-robin SC preserves well-formedness
and the five universal invariants; if the SC was ready at entry, the result
is ready and sufficient for a zero charge. -/
theorem refill_unblock_check_ok (ctx : Ctx) (sc : sched_context_t)
    (hwf : sc_wf sc) (hinv : sc_invariants ctx sc) (hrr : ¬ isRoundRobin sc) :
    sc_wf (refill_unblock_check ctx sc) ∧
      sc_invariants ctx (refill_unblock_check ctx sc) ∧
      (refill_ready ctx sc →
        refill_ready ctx (refill_unblock_check ctx sc) ∧
          refill_sufficient ctx (refill_unblock_check ctx sc) 0) := by
  obtain ⟨hh, hc, hcm⟩ := hwf
  have hinv' := hinv
  obtain ⟨hchain, hmin, hsum, hwindow, _⟩ := hinv'
  have hbp := (sum_le_period ctx sc ⟨hh, hc, hcm⟩ hinv).2
  unfold refill_unblock_check
  rw [if_neg hrr]
  by_cases hready : refill_ready ctx sc
  · rw [if_pos hready]
    have hlne := refills_list_ne_nil sc hc
    obtain ⟨H, t, hlshape⟩ := exists_cons_of_ne_nil hlne
    have hHeq : REFILL_HEAD sc = H := REFILL_HEAD_eq_of_list sc hh hc H t hlshape
    rw [← hHeq] at hlshape
    clear hHeq
    set T := ctx.ksCurTime + ctx.kernelWcetTicks with hTdef
    set sc₁ := update_refill sc sc.scRefillHead ⟨T, (REFILL_HEAD sc).rAmount⟩
      with hsc₁
    have hlist₁ : refills_list sc₁ = ⟨T, (REFILL_HEAD sc).rAmount⟩ :: t := by
      rw [hsc₁, refills_list_set_head sc _ hh hc hcm, hlshape]
      rfl
    have hh₁ : sc₁.scRefillHead < sc₁.scRefillMax := by
      rw [hsc₁]; simpa using hh
    have hc₁ : 1 ≤ sc₁.scRefillCount := by rw [hsc₁]; simpa using hc
    have hcm₁ : sc₁.scRefillCount ≤ sc₁.scRefillMax := by rw [hsc₁]; simpa using hcm
    have hH₁ : REFILL_HEAD sc₁ = ⟨T, (REFILL_HEAD sc).rAmount⟩ :=
      REFILL_HEAD_eq_of_list sc₁ hh₁ hc₁ _ t hlist₁
    have hready' : (REFILL_HEAD sc).rTime ≤ T := hready
    have hwin : listEnd (refills_list sc) ≤ (REFILL_HEAD sc).rTime + sc.scPeriod := by
      rw [within_period_iff] at hwindow
      rw [listStart_refills_list sc hh hc] at hwindow
      exact hwindow
    have hsum₁ : sum_amounts (refills_list sc₁) = sum_amounts (refills_list sc) := by
      rw [hlist₁, hlshape]
      simp
    rw [show merge_overlapping ctx sc₁ =
      merge_overlapping_go ctx sc₁.scRefillCount sc₁ from rfl]
    have hres := merge_overlapping_go_ok ctx sc₁.scRefillCount sc₁ le_rfl
      hh₁ hc₁ hcm₁
      (by rw [hH₁])
      (by rw [hlist₁]
          show List.Chain' refill_disjoint t
          exact List.Chain'.tail (hlshape ▸ hchain))
      (by rw [hlist₁]
          intro r hr
          rcases List.mem_cons.mp hr with hr1 | hr2
          · subst hr1
            show MIN_BUDGET ctx ≤ (REFILL_HEAD sc).rAmount
            exact hmin _ (by rw [hlshape]; simp)
          · exact hmin r (by rw [hlshape]; simp [hr2]))
      (by intro hc2'
          have hc2 : 2 ≤ sc.scRefillCount := by
            have : sc₁.scRefillCount = sc.scRefillCount := by rw [hsc₁]; rfl
            omega
          have htne : t ≠ [] := by
            intro hx
            have hlen := length_refills_list sc
            rw [hlshape, hx] at hlen
            simp at hlen
            omega
          rw [hlist₁, listEnd_cons_of_ne_nil _ _ htne]
          have h1 : listEnd t = listEnd (refills_list sc) := by
            rw [hlshape]
            exact (listEnd_cons_of_ne_nil _ _ htne).symm
          rw [h1]
          show _ ≤ T + sc₁.scPeriod
          have hper : sc₁.scPeriod = sc.scPeriod := by rw [hsc₁]; rfl
          rw [hper]
          omega)
      (by rw [hsum₁]
          show _ ≤ sc₁.scPeriod
          have hper : sc₁.scPeriod = sc.scPeriod := by rw [hsc₁]; rfl
          rw [hper]
          omega)
    obtain ⟨hokwf, hokchain, hokmin, hoksum, hokwin, hokT, hokP, hokB, hokM⟩ := hres
    have hper : sc₁.scPeriod = sc.scPeriod := by rw [hsc₁]; rfl
    have hbud : sc₁.scBudget = sc.scBudget := by rw [hsc₁]; rfl
    refine ⟨hokwf, ⟨hokchain, hokmin, ?_, ?_, hokwf.2.2⟩, ?_⟩
    · rw [hokB, hoksum, hsum₁, hbud]
      exact hsum
    · rw [hokP]
      exact hokwin
    · intro _
      constructor
      · show (REFILL_HEAD (merge_overlapping_go ctx sc₁.scRefillCount sc₁)).rTime ≤
          ctx.ksCurTime + ctx.kernelWcetTicks
        omega
      · show MIN_BUDGET ctx ≤
          refill_capacity (merge_overlapping_go ctx sc₁.scRefillCount sc₁) 0
        have hmem : REFILL_HEAD (merge_overlapping_go ctx sc₁.scRefillCount sc₁) ∈
            refills_list (merge_overlapping_go ctx sc₁.scRefillCount sc₁) :=
          head_mem_refills_list _ hokwf.1 hokwf.2.1
        have hmb := hokmin _ hmem
        unfold refill_capacity
        rw [if_neg (by omega)]
        omega
  · rw [if_neg hready]
    exact ⟨⟨hh, hc, hcm⟩, hinv, fun hcontra => absurd hcontra hready⟩

/-! ### The traversal loops of `refill_sum` and the debug invariant checkers

Each `while (seen < count)` loop of the source is expressed with a fuel
parameter equal to the maximum number of iterations it can perform; the
`seen < count` guard of the source is kept inside the body.  An `_iters`
twin mirrors each loop and counts how many times its body runs. -/

def refill_sum_go (sc : sched_context_t) : Nat → Nat → Nat → Nat → Nat
  | 0, _, _, sum => sum
  | fuel + 1, current, seen, sum =>
    if seen < sc.scRefillCount then
      refill_sum_go sc fuel (refill_next sc current) (seen + 1)
        (sum + (REFILL_INDEX sc current).rAmount)
    else sum

/-- `refill_sum`: compute the sum of a refill queue. -/
def refill_sum (sc : sched_context_t) : Nat :=
  refill_sum_go sc sc.scRefillCount sc.scRefillHead 0 0

def refill_sum_iters_go (sc : sched_context_t) : Nat → Nat → Nat → Nat
  | 0, _, _ => 0
  | fuel + 1, current, seen =>
    if seen < sc.scRefillCount then
      1 + refill_sum_iters_go sc fuel (refill_next sc current) (seen + 1)
    else 0

/-- Number of loop iterations `refill_sum` performs. -/
def refill_sum_iters (sc : sched_context_t) : Nat :=
  refill_sum_iters_go sc sc.scRefillCount sc.scRefillHead 0

def refill_ordered_disjoint_go (sc : sched_context_t) : Nat → Nat → Nat → Nat → Bool
  | 0, _, _, _ => true
  | fuel + 1, current, nxt, seen =>
    if seen < sc.scRefillCount then
      if ¬ ((REFILL_INDEX sc current).rTime + (REFILL_INDEX sc current).rAmount ≤
          (REFILL_INDEX sc nxt).rTime) then false
      else
        refill_ordered_disjoint_go sc fuel nxt (refill_next sc nxt) (seen + 1)
    else true

/-- `refill_ordered_disjoint`: the debug checker for P1. -/
def refill_ordered_disjoint (sc : sched_context_t) : Bool :=
  refill_ordered_disjoint_go sc sc.scRefillCount sc.scRefillHead
    (refill_next sc sc.scRefillHead) 1

def refill_ordered_disjoint_iters_go (sc : sched_context_t) : Nat → Nat → Nat → Nat → Nat
  | 0, _, _, _ => 0
  | fuel + 1, current, nxt, seen =>
    if seen < sc.scRefillCount then
      if ¬ ((REFILL_INDEX sc current).rTime + (REFILL_INDEX sc current).rAmount ≤
          (REFILL_INDEX sc nxt).rTime) then 1
      else
        1 + refill_ordered_disjoint_iters_go sc fuel nxt (refill_next sc nxt) (seen + 1)
    else 0

/-- Number of loop iterations the P1 checker performs. -/
def refill_ordered_disjoint_iters (sc : sched_context_t) : Nat :=
  refill_ordered_disjoint_iters_go sc sc.scRefillCount sc.scRefillHead
    (refill_next sc sc.scRefillHead) 1

def refill_at_least_min_budget_go (ctx : Ctx) (sc : sched_context_t) :
    Nat → Nat → Nat → Bool
  | 0, _, _ => true
  | fuel + 1, current, seen =>
    if seen < sc.scRefillCount then
      if ¬ (MIN_BUDGET ctx ≤ (REFILL_INDEX sc current).rAmount) then false
      else refill_at_least_min_budget_go ctx sc fuel (refill_next sc current) (seen + 1)
    else true

/-- `refill_at_least_min_budget`: the debug checker for P2. -/
def refill_at_least_min_budget (ctx : Ctx) (sc : sched_context_t) : Bool :=
  refill_at_least_min_budget_go ctx sc sc.scRefillCount sc.scRefillHead 0

def refill_at_least_min_budget_iters_go (ctx : Ctx) (sc : sched_context_t) :
    Nat → Nat → Nat → Nat
  | 0, _, _ => 0
  | fuel + 1, current, seen =>
    if seen < sc.scRefillCount then
      if ¬ (MIN_BUDGET ctx ≤ (REFILL_INDEX sc current).rAmount) then 1
      else 1 + refill_at_least_min_budget_iters_go ctx sc fuel
        (refill_next sc current) (seen + 1)
    else 0

/-- Number of loop iterations the P2 checker performs. -/
def refill_at_least_min_budget_iters (ctx : Ctx) (sc : sched_context_t) : Nat :=
  refill_at_least_min_budget_iters_go ctx sc sc.scRefillCount sc.scRefillHead 0

def merge_overlapping_pops_go (ctx : Ctx) : Nat → sched_context_t → Nat
  | 0, _ => 0
  | fuel + 1, sc =>
    if merge_guard sc then 1 + merge_overlapping_pops_go ctx fuel (merge_step ctx sc)
    else 0

/-- Number of pops the coalescing loop of `refill_unblock_check` performs. -/
def merge_overlapping_pops (ctx : Ctx) (sc : sched_context_t) : Nat :=
  merge_overlapping_pops_go ctx sc.scRefillCount sc

theorem refill_sum_iters_go_eq (sc : sched_context_t) :
    ∀ fuel current seen, seen + fuel = sc.scRefillCount →
      refill_sum_iters_go sc fuel current seen = fuel := by
  intro fuel
  induction fuel with
  | zero => intro current seen _; rfl
  | succ fuel ih =>
    intro current seen hsum
    show (if seen < sc.scRefillCount then
      1 + refill_sum_iters_go sc fuel (refill_next sc current) (seen + 1) else 0) = _
    rw [if_pos (by omega)]
    rw [ih (refill_next sc current) (seen + 1) (by omega)]
    omega

theorem refill_ordered_disjoint_iters_go_le (sc : sched_context_t) :
    ∀ fuel current nxt seen,
      refill_ordered_disjoint_iters_go sc fuel current nxt seen ≤
        sc.scRefillCount - seen := by
  intro fuel
  induction fuel with
  | zero => intro current nxt seen; exact Nat.zero_le _
  | succ fuel ih =>
    intro current nxt seen
    simp only [refill_ordered_disjoint_iters_go]
    by_cases h1 : seen < sc.scRefillCount
    · rw [if_pos h1]
      by_cases h2 : ¬ ((REFILL_INDEX sc current).rTime +
          (REFILL_INDEX sc current).rAmount ≤ (REFILL_INDEX sc nxt).rTime)
      · rw [if_pos h2]
        omega
      · rw [if_neg h2]
        have := ih nxt (refill_next sc nxt) (seen + 1)
        omega
    · rw [if_neg h1]
      exact Nat.zero_le _

theorem refill_at_least_min_budget_iters_go_le (ctx : Ctx) (sc : sched_context_t) :
    ∀ fuel current seen,
      refill_at_least_min_budget_iters_go ctx sc fuel current seen ≤
        sc.scRefillCount - seen := by
  intro fuel
  induction fuel with
  | zero => intro current seen; exact Nat.zero_le _
  | succ fuel ih =>
    intro current seen
    simp only [refill_at_least_min_budget_iters_go]
    by_cases h1 : seen < sc.scRefillCount
    · rw [if_pos h1]
      by_cases h2 : ¬ (MIN_BUDGET ctx ≤ (REFILL_INDEX sc current).rAmount)
      · rw [if_pos h2]
        omega
      · rw [if_neg h2]
        have := ih (refill_next sc current) (seen + 1)
        omega
    · rw [if_neg h1]
      exact Nat.zero_le _

theorem merge_overlapping_pops_go_le (ctx : Ctx) :
    ∀ fuel sc, merge_overlapping_pops_go ctx fuel sc ≤ sc.scRefillCount - 1 := by
  intro fuel
  induction fuel with
  | zero => intro sc; exact Nat.zero_le _
  | succ fuel ih =>
    intro sc
    simp only [merge_overlapping_pops_go]
    by_cases hg : merge_guard sc
    · rw [if_pos hg]
      have h1 : 1 < sc.scRefillCount := hg.1
      have h2 := ih (merge_step ctx sc)
      rw [merge_step_scRefillCount] at h2
      omega
    · rw [if_neg hg]
      exact Nat.zero_le _

/-- The coalescing loop always exits through its own guard: any fuel of at
least `scRefillCount` computes the same result. -/
theorem merge_overlapping_go_fuel (ctx : Ctx) :
    ∀ n, ∀ f₁ f₂ sc, sc.scRefillCount = n → n ≤ f₁ → n ≤ f₂ →
      merge_overlapping_go ctx f₁ sc = merge_overlapping_go ctx f₂ sc := by
  intro n
  induction n using Nat.strong_induction_on with
  | _ n ih =>
    intro f₁ f₂ sc hn h1 h2
    by_cases hz : n = 0
    · subst hz
      have hguard : ¬ merge_guard sc := by
        intro hg
        have : 1 < sc.scRefillCount := hg.1
        omega
      cases f₁ with
      | zero =>
        cases f₂ with
        | zero => rfl
        | succ f₂ =>
          show _ = if merge_guard sc then _ else sc
          rw [if_neg hguard]
          rfl
      | succ f₁ =>
        cases f₂ with
        | zero =>
          show (if merge_guard sc then _ else sc) = _
          rw [if_neg hguard]
          rfl
        | succ f₂ =>
          show (if merge_guard sc then _ else sc) =
            (if merge_guard sc then _ else sc)
          rw [if_neg hguard, if_neg hguard]
    · obtain ⟨g₁, rfl⟩ : ∃ g, f₁ = g + 1 := ⟨f₁ - 1, by omega⟩
      obtain ⟨g₂, rfl⟩ : ∃ g, f₂ = g + 1 := ⟨f₂ - 1, by omega⟩
      show (if merge_guard sc then merge_overlapping_go ctx g₁ (merge_step ctx sc)
          else sc) =
        (if merge_guard sc then merge_overlapping_go ctx g₂ (merge_step ctx sc)
          else sc)
      by_cases hg : merge_guard sc
      · rw [if_pos hg, if_pos hg]
        have hcount : (merge_step ctx sc).scRefillCount = n - 1 := by
          rw [merge_step_scRefillCount, hn]
        have h1' : 1 < sc.scRefillCount := hg.1
        exact ih (n - 1) (by omega) g₁ g₂ (merge_step ctx sc) hcount
          (by omega) (by omega)
      · rw [if_neg hg, if_neg hg]

/-! ### Helper for `refill_update` -/

theorem refills_list_singleton (Y : sched_context_t) (hhead : Y.scRefillHead = 0)
    (hcount : Y.scRefillCount = 1) :
    refills_list Y = [Y.scRefills 0] := by
  unfold refills_list
  rw [hcount, hhead]
  rw [show List.range 1 = [0] from by decide]
  simp [Nat.zero_mod]

/-- After `refill_update` truncates the queue to the single head refill and
installs the new parameters, the final trim-or-reschedule step restores
"sum = new budget" and the new window constraint, provided the new budget
fits in the new period.  `Y` is the truncated one-refill state, `tm` the
(possibly slid) start time of its only refill. -/
theorem refill_update_trim_case (ctx : Ctx) (sc : sched_context_t) (P' B' M' : Nat)
    (hM : 1 ≤ M') (hBP : B' ≤ P')
    (Y : sched_context_t) (tm : Nat)
    (hhead : Y.scRefillHead = 0) (hcount : Y.scRefillCount = 1)
    (hmaxY : Y.scRefillMax = M')
    (hslot : Y.scRefills 0 = ⟨tm, (REFILL_HEAD sc).rAmount⟩) :
    sum_amounts (refills_list (update_refill Y Y.scRefillHead
      ⟨(REFILL_HEAD Y).rTime, B'⟩)) = B' ∧
    within_period_l P' (refills_list (update_refill Y Y.scRefillHead
      ⟨(REFILL_HEAD Y).rTime, B'⟩)) := by
  have hlY : refills_list Y = [(⟨tm, (REFILL_HEAD sc).rAmount⟩ : refill_t)] := by
    rw [refills_list_singleton Y hhead hcount, hslot]
  have hHY : REFILL_HEAD Y = ⟨tm, (REFILL_HEAD sc).rAmount⟩ := by
    rw [REFILL_HEAD, REFILL_INDEX, hhead, hslot]
  have hlist : refills_list (update_refill Y Y.scRefillHead
      ⟨(REFILL_HEAD Y).rTime, B'⟩) = [⟨tm, B'⟩] := by
    rw [refills_list_set_head Y _ (by omega) (by omega) (by omega), hlY, hHY]
    simp
  rw [hlist]
  constructor
  · simp
  · unfold within_period_l
    simp
    omega

theorem refill_update_sched_case (ctx : Ctx) (sc : sched_context_t) (P' B' M' : Nat)
    (hM : 1 ≤ M') (hBP : B' ≤ P')
    (hminH : MIN_BUDGET ctx ≤ (REFILL_HEAD sc).rAmount)
    (Y : sched_context_t) (tm : Nat)
    (hhead : Y.scRefillHead = 0) (hcount : Y.scRefillCount = 1)
    (hmaxY : Y.scRefillMax = M') (hperY : Y.scPeriod = P')
    (hslot : Y.scRefills 0 = ⟨tm, (REFILL_HEAD sc).rAmount⟩)
    (hlt : ¬ B' ≤ (REFILL_HEAD Y).rAmount) :
    sum_amounts (refills_list (schedule_used ctx Y
      ⟨(REFILL_HEAD Y).rTime + P' - (B' - (REFILL_HEAD Y).rAmount),
        B' - (REFILL_HEAD Y).rAmount⟩)) = B' ∧
    within_period_l P' (refills_list (schedule_used ctx Y
      ⟨(REFILL_HEAD Y).rTime + P' - (B' - (REFILL_HEAD Y).rAmount),
        B' - (REFILL_HEAD Y).rAmount⟩)) := by
  have hlY : refills_list Y = [(⟨tm, (REFILL_HEAD sc).rAmount⟩ : refill_t)] := by
    rw [refills_list_singleton Y hhead hcount, hslot]
  have hHY : REFILL_HEAD Y = ⟨tm, (REFILL_HEAD sc).rAmount⟩ := by
    rw [REFILL_HEAD, REFILL_INDEX, hhead, hslot]
  have hTY : REFILL_TAIL Y = ⟨tm, (REFILL_HEAD sc).rAmount⟩ := by
    have h := getLast?_refills_list Y (by omega) (by omega) (by omega)
    rw [hlY] at h
    simp at h
    rw [h]
  have hamlt : (REFILL_HEAD sc).rAmount < B' := by
    rw [hHY] at hlt
    simpa using Nat.lt_of_not_le hlt
  have hsumY : sum_amounts (refills_list Y) = (REFILL_HEAD sc).rAmount := by
    rw [hlY]
    simp
  obtain ⟨hokwf, _, _, hoksum, hokwin⟩ := schedule_used_ok ctx Y
    ⟨(REFILL_HEAD Y).rTime + P' - (B' - (REFILL_HEAD Y).rAmount),
      B' - (REFILL_HEAD Y).rAmount⟩
    (by omega) (by omega) (by omega)
    (fun hc0 => absurd hc0 (by omega))
    (by intro _
        refine ⟨by rw [hlY]; exact List.chain'_singleton _, ?_, ?_, ?_, ?_⟩
        · rw [hlY]
          intro r hr
          simp at hr
          subst hr
          exact hminH
        · rw [hTY, hHY]
          show tm + (REFILL_HEAD sc).rAmount ≤ _
          dsimp
          omega
        · rw [hHY, hperY]
          dsimp
          omega
        · rw [hsumY, hperY, hHY]
          dsimp
          omega)
  constructor
  · rw [hoksum, hsumY, hHY]
    dsimp
    omega
  · rw [show Y.scPeriod = P' from hperY] at hokwin
    exact hokwin

/-- C3 (amended with `B' ≤ P'`): `refill_update` restores "sum of refill
amounts = new budget" and the window constraint for the new period. -/
theorem refill_update_ok (ctx : Ctx) (sc : sched_context_t) (P' B' M' : Nat)
    (hwf : sc_wf sc) (hinv : sc_invariants ctx sc) (hactive : sc_active sc)
    (hB : MIN_SC_BUDGET ctx ≤ B') (hM : 1 ≤ M') (hBP : B' ≤ P') :
    sum_amounts (refills_list (refill_update ctx sc P' B' M')) = B' ∧
      within_period_l P' (refills_list (refill_update ctx sc P' B' M')) := by
  obtain ⟨hh, hc, hcm⟩ := hwf
  have hminH : MIN_BUDGET ctx ≤ (REFILL_HEAD sc).rAmount :=
    hinv.2.1 _ (head_mem_refills_list sc hh hc)
  simp only [refill_update]
  split_ifs with h1 h2 h3
  · refine refill_update_trim_case ctx sc P' B' M' hM hBP _ ctx.ksCurTime
      ?_ ?_ ?_ ?_ <;> rfl
  · refine refill_update_sched_case ctx sc P' B' M' hM hBP hminH _ ctx.ksCurTime
      ?_ ?_ ?_ ?_ ?_ ?_
    · rfl
    · rfl
    · rfl
    · rfl
    · rfl
    · exact h2
  · refine refill_update_trim_case ctx sc P' B' M' hM hBP _ (REFILL_HEAD sc).rTime
      ?_ ?_ ?_ ?_ <;> rfl
  · refine refill_update_sched_case ctx sc P' B' M' hM hBP hminH _
      (REFILL_HEAD sc).rTime ?_ ?_ ?_ ?_ ?_ ?_
    · rfl
    · rfl
    · rfl
    · rfl
    · rfl
    · exact h3

theorem update_refill_same (sc : sched_context_t) (i : Nat) :
    update_refill sc i (sc.scRefills i) = sc := by
  unfold update_refill
  have hfun : (fun j => if j = i then sc.scRefills i else sc.scRefills j) =
      sc.scRefills := by
    funext j
    by_cases hj : j = i
    · rw [hj, if_pos rfl]
    · rw [if_neg hj]
  rw [hfun]

/-! ### Claim theorems -/

/-- C1: every SC that satisfies the five universal invariants (P1 ordered
and disjoint, P2 every amount at least `MIN_BUDGET`, P3 amounts sum to the
budget, P4 the queue spans at most one period, P5 `count ≤ max_refills`)
and has `count ≥ 1` satisfies them again, with `count ≥ 1`, after
`refill_budget_check usage` (as the current, non-round-robin SC) for every
`usage`, and after `refill_unblock_check`. -/
theorem budget_check_and_unblock_check_preserve_invariants
    (ctx : Ctx) (sc : sched_context_t) (usage : Nat)
    (hwf : sc_wf sc) (hinv : sc_invariants ctx sc) (hrr : ¬ isRoundRobin sc) :
    (sc_invariants ctx (refill_budget_check ctx sc usage) ∧
      1 ≤ (refill_budget_check ctx sc usage).scRefillCount) ∧
    (sc_invariants ctx (refill_unblock_check ctx sc) ∧
      1 ≤ (refill_unblock_check ctx sc).scRefillCount) :=
  ⟨⟨(refill_budget_check_ok ctx sc usage hwf hinv).2,
    (refill_budget_check_ok ctx sc usage hwf hinv).1.2.1⟩,
   ⟨(refill_unblock_check_ok ctx sc hwf hinv hrr).2.1,
    (refill_unblock_check_ok ctx sc hwf hinv hrr).1.2.1⟩⟩

/-- C2: when `refill_budget_check usage` runs on a current, non-round-robin
SC whose head refill is not ready or has less than `usage` budget, the whole
queue is replaced by the single refill
`(old head time + period + usage, budget)`. -/
theorem refill_budget_check_overrun (ctx : Ctx) (sc : sched_context_t) (usage : Nat)
    (hwf : sc_wf sc) (hinv : sc_invariants ctx sc) (hrr : ¬ isRoundRobin sc)
    (hover : ¬ refill_ready ctx sc ∨ (REFILL_HEAD sc).rAmount < usage) :
    refills_list (refill_budget_check ctx sc usage) =
      [⟨(REFILL_HEAD sc).rTime + sc.scPeriod + usage, sc.scBudget⟩] ∧
    (refill_budget_check ctx sc usage).scRefillCount = 1 := by
  obtain ⟨hh, hc, hcm⟩ := hwf
  simp only [refill_budget_check]
  rw [if_pos hover]
  have hchar := schedule_used_empty_char ctx { sc with scRefillCount := 0 }
    ⟨(REFILL_HEAD sc).rTime + sc.scPeriod + usage, sc.scBudget⟩ rfl hh
  exact hchar

/-- C4 (amended with the `refill_ready` entry condition): after
`refill_unblock_check` on an active, non-round-robin, invariant-satisfying
SC whose head is ready, both `refill_ready` and `refill_sufficient 0`
hold. -/
theorem refill_unblock_check_postconditions (ctx : Ctx) (sc : sched_context_t)
    (hwf : sc_wf sc) (hinv : sc_invariants ctx sc) (hrr : ¬ isRoundRobin sc)
    (hready : refill_ready ctx sc) :
    refill_ready ctx (refill_unblock_check ctx sc) ∧
      refill_sufficient ctx (refill_unblock_check ctx sc) 0 :=
  (refill_unblock_check_ok ctx sc hwf hinv hrr).2.2 hready

/-- C5 (amended): `refill_budget_check 0` is a no-op exactly under the
conditions the code honours: the head must be ready (otherwise the overrun
branch rewrites the queue), `MIN_BUDGET` must be positive, the queue must
span exactly one period (otherwise the merge step moves the tail's start),
and the tail must not be splittable (otherwise `schedule_used` carves a
`MIN_BUDGET` chunk out of it). -/
theorem refill_budget_check_zero_noop (ctx : Ctx) (sc : sched_context_t)
    (hwf : sc_wf sc) (hinv : sc_invariants ctx sc) (hrr : ¬ isRoundRobin sc)
    (hmb : 0 < MIN_BUDGET ctx) (hready : refill_ready ctx sc)
    (hexact : (REFILL_TAIL sc).rTime + (REFILL_TAIL sc).rAmount =
      (REFILL_HEAD sc).rTime + sc.scPeriod)
    (hnosplit : refill_full sc ∨ (REFILL_TAIL sc).rAmount < 2 * MIN_BUDGET ctx) :
    refill_budget_check ctx sc 0 = sc := by
  obtain ⟨hh, hc, hcm⟩ := hwf
  have hminH : MIN_BUDGET ctx ≤ (REFILL_HEAD sc).rAmount :=
    hinv.2.1 _ (head_mem_refills_list sc hh hc)
  simp only [refill_budget_check]
  rw [if_neg (by push_neg; exact ⟨hready, Nat.zero_le _⟩)]
  rw [if_neg (by omega : ¬ (0 : Nat) = (REFILL_HEAD sc).rAmount)]
  rw [if_pos (by omega : (REFILL_HEAD sc).rAmount - 0 ≥ MIN_BUDGET ctx)]
  rw [show (⟨(REFILL_HEAD sc).rTime + 0, (REFILL_HEAD sc).rAmount - 0⟩ : refill_t) =
    sc.scRefills sc.scRefillHead from rfl]
  rw [update_refill_same]
  simp only [schedule_used]
  rw [if_neg (show ¬ refill_empty sc from by unfold refill_empty; omega)]
  rw [if_neg (show ¬ ((0 : Nat) < MIN_BUDGET ctx ∧ ¬ refill_full sc ∧
      2 * MIN_BUDGET ctx ≤ (REFILL_TAIL sc).rAmount + 0) from by
    rintro ⟨_, hnf, hsp⟩
    rcases hnosplit with hfull | hlt
    · exact hnf hfull
    · omega)]
  rw [if_pos (Or.inl (show (0 : Nat) < MIN_BUDGET ctx from hmb))]
  have hval : (⟨(REFILL_HEAD sc).rTime + sc.scPeriod - (REFILL_TAIL sc).rAmount,
      (REFILL_TAIL sc).rAmount + 0⟩ : refill_t) =
      sc.scRefills (refill_tail_index sc) := by
    have h1 : (REFILL_HEAD sc).rTime + sc.scPeriod - (REFILL_TAIL sc).rAmount =
        (REFILL_TAIL sc).rTime := by omega
    rw [h1]
    rfl
  rw [hval, update_refill_same]

/-- C6: when `schedule_used` receives an undersized refill, the queue is not
full and the tail can spare, it moves `remainder = MIN_BUDGET - new.rAmount`
ticks from the tail to `new` and pushes `new` as the new tail; both touched
refills end with at least `MIN_BUDGET`, they stay ordered and disjoint, the
move is exact (no truncation), and the total amount grows by exactly the
charged `new.rAmount`. -/
theorem schedule_used_split_rebalance (ctx : Ctx) (sc : sched_context_t)
    (new : refill_t)
    (hwf : sc_wf sc) (hinv : sc_invariants ctx sc)
    (hdisj : (REFILL_TAIL sc).rTime + (REFILL_TAIL sc).rAmount ≤ new.rTime)
    (h1 : new.rAmount < MIN_BUDGET ctx) (h2 : ¬ refill_full sc)
    (h3 : 2 * MIN_BUDGET ctx ≤ (REFILL_TAIL sc).rAmount + new.rAmount) :
    refills_list (schedule_used ctx sc new) =
      (refills_list sc).dropLast ++
        [⟨(REFILL_TAIL sc).rTime,
          (REFILL_TAIL sc).rAmount - (MIN_BUDGET ctx - new.rAmount)⟩,
         ⟨new.rTime - (MIN_BUDGET ctx - new.rAmount), MIN_BUDGET ctx⟩] ∧
    (schedule_used ctx sc new).scRefillCount = sc.scRefillCount + 1 ∧
    MIN_BUDGET ctx ≤
      (REFILL_TAIL sc).rAmount - (MIN_BUDGET ctx - new.rAmount) ∧
    (REFILL_TAIL sc).rTime +
        ((REFILL_TAIL sc).rAmount - (MIN_BUDGET ctx - new.rAmount)) ≤
      new.rTime - (MIN_BUDGET ctx - new.rAmount) ∧
    new.rTime - (MIN_BUDGET ctx - new.rAmount) + (MIN_BUDGET ctx - new.rAmount) =
      new.rTime ∧
    sum_amounts (refills_list (schedule_used ctx sc new)) =
      sum_amounts (refills_list sc) + new.rAmount := by
  obtain ⟨hh, hc, hcm⟩ := hwf
  have hmin_tail : MIN_BUDGET ctx ≤ (REFILL_TAIL sc).rAmount :=
    hinv.2.1 _ (tail_mem_refills_list sc hh hc hcm)
  obtain ⟨hlist, hcount⟩ :=
    schedule_used_split_char ctx sc new hh hc hcm h1 h2 h3
  have hamt : new.rAmount + (MIN_BUDGET ctx - new.rAmount) = MIN_BUDGET ctx := by
    omega
  have hlne := refills_list_ne_nil sc hc
  have hglast := getLast?_refills_list sc hh hc hcm
  have hdecomp : (refills_list sc).dropLast ++ [REFILL_TAIL sc] = refills_list sc := by
    have h := dropLast_concat_getD (refills_list sc) hlne ⟨0, 0⟩
    rw [hglast] at h
    simpa using h
  have hsum_decomp : sum_amounts (refills_list sc).dropLast +
      (REFILL_TAIL sc).rAmount = sum_amounts (refills_list sc) := by
    conv_rhs => rw [← hdecomp]
    simp
  refine ⟨by rw [hlist, hamt], hcount, by omega, by omega, by omega, ?_⟩
  rw [hlist]
  simp only [sum_amounts_append, sum_amounts_cons, sum_amounts_nil]
  omega

/-- C7: `refill_new` produces head index 0, count 1, the single refill
`(now, budget)`; the result is ready, and sufficient for a zero charge
exactly when `budget ≥ MIN_BUDGET`. -/
theorem refill_new_ok (ctx : Ctx) (sc : sched_context_t)
    (max_refills budget period : Nat)
    (hmax : 1 ≤ max_refills) (hbud : MIN_BUDGET ctx < budget) :
    (refill_new ctx sc max_refills budget period).scRefillHead = 0 ∧
    (refill_new ctx sc max_refills budget period).scRefillCount = 1 ∧
    refills_list (refill_new ctx sc max_refills budget period) =
      [⟨ctx.ksCurTime, budget⟩] ∧
    refill_ready ctx (refill_new ctx sc max_refills budget period) ∧
    (refill_sufficient ctx (refill_new ctx sc max_refills budget period) 0 ↔
      MIN_BUDGET ctx ≤ budget) := by
  refine ⟨rfl, rfl, ?_, ?_, ?_⟩
  · rw [refills_list_singleton _ rfl rfl]
    rfl
  · show (REFILL_HEAD _).rTime ≤ ctx.ksCurTime + ctx.kernelWcetTicks
    show ctx.ksCurTime ≤ ctx.ksCurTime + ctx.kernelWcetTicks
    omega
  · show MIN_BUDGET ctx ≤ refill_capacity _ 0 ↔ _
    unfold refill_capacity
    rw [if_neg (by omega)]
    show MIN_BUDGET ctx ≤ budget - 0 ↔ _
    omega

/-- C8: `refill_capacity` computes `max(0, head.rAmount - usage)` (with the
explicit guard avoiding unsigned underflow) and `refill_sufficient` holds
exactly when the capacity is at least `MIN_BUDGET`.  Both queries are pure
functions of the SC and do not modify it. -/
theorem refill_capacity_sufficient_spec (ctx : Ctx) (sc : sched_context_t)
    (usage : Nat) (hc : 1 ≤ sc.scRefillCount) :
    (refill_capacity sc usage : Int) =
      max 0 (((REFILL_HEAD sc).rAmount : Int) - (usage : Int)) ∧
    ((REFILL_HEAD sc).rAmount < usage → refill_capacity sc usage = 0) ∧
    (refill_sufficient ctx sc usage ↔
      MIN_BUDGET ctx ≤ refill_capacity sc usage) := by
  refine ⟨?_, ?_, Iff.rfl⟩
  · unfold refill_capacity
    by_cases h : usage > (REFILL_HEAD sc).rAmount
    · rw [if_pos h]
      have : ((REFILL_HEAD sc).rAmount : Int) - (usage : Int) ≤ 0 := by
        omega
      omega
    · rw [if_neg h]
      push_neg at h
      have : ((REFILL_HEAD sc).rAmount - usage : Nat) =
          ((REFILL_HEAD sc).rAmount : Int) - (usage : Int) := by
        omega
      omega
  · intro h
    unfold refill_capacity
    rw [if_pos (by omega)]

/-- C10: every slot index the ring-buffer primitives compute stays below
`scRefillMax`: `refill_next` maps valid indices to valid indices,
`refill_tail_index` is valid whenever the queue is non-empty,
`refill_pop_head` keeps the head valid and decrements the count by exactly
one, `refill_add_tail` increments the count by exactly one, and the slot it
writes (the tail index after the increment) is valid whenever there was
room. -/
theorem ring_buffer_indices_in_range (sc : sched_context_t) (r : refill_t)
    (hh : sc.scRefillHead < sc.scRefillMax)
    (hcm : sc.scRefillCount ≤ sc.scRefillMax) :
    (∀ i, i < sc.scRefillMax → refill_next sc i < sc.scRefillMax) ∧
    (1 ≤ sc.scRefillCount → refill_tail_index sc < sc.scRefillMax) ∧
    (1 ≤ sc.scRefillCount →
      (refill_pop_head sc).2.scRefillHead < sc.scRefillMax ∧
      (refill_pop_head sc).2.scRefillCount = sc.scRefillCount - 1 ∧
      (refill_pop_head sc).2.scRefillCount + 1 = sc.scRefillCount) ∧
    (refill_add_tail sc r).scRefillCount = sc.scRefillCount + 1 ∧
    (sc.scRefillCount < sc.scRefillMax →
      refill_tail_index { sc with scRefillCount := sc.scRefillCount + 1 } <
        sc.scRefillMax) := by
  refine ⟨fun i hi => refill_next_lt sc i hi,
    fun hc => refill_tail_index_lt sc hh hc hcm,
    fun hc => ⟨pop_head_lt sc hh, rfl, by show sc.scRefillCount - 1 + 1 = _; omega⟩,
    rfl, fun hlt => ?_⟩
  exact refill_tail_index_lt { sc with scRefillCount := sc.scRefillCount + 1 }
    hh (by show 1 ≤ sc.scRefillCount + 1; omega)
    (by show sc.scRefillCount + 1 ≤ sc.scRefillMax; omega)

/-- C9 (amended): the loops of the engine terminate within `max_refills`
iterations.  The body of the coalescing loop strictly decreases the count,
the loop performs at most `count - 1` pops and any fuel of at least `count`
yields its fixpoint; `refill_sum` performs exactly `count` iterations; the
ordered-disjoint checker performs at most `count - 1` iterations and the
min-budget checker at most `count`. -/
theorem engine_loops_terminate (ctx : Ctx) (sc : sched_context_t)
    (hcm : sc.scRefillCount ≤ sc.scRefillMax) :
    (merge_guard sc →
      (merge_step ctx sc).scRefillCount = sc.scRefillCount - 1 ∧
      (merge_step ctx sc).scRefillCount < sc.scRefillCount) ∧
    merge_overlapping_pops ctx sc ≤ sc.scRefillCount - 1 ∧
    (∀ fuel, sc.scRefillCount ≤ fuel →
      merge_overlapping_go ctx fuel sc = merge_overlapping ctx sc) ∧
    refill_sum_iters sc = sc.scRefillCount ∧
    refill_ordered_disjoint_iters sc ≤ sc.scRefillCount - 1 ∧
    refill_at_least_min_budget_iters ctx sc ≤ sc.scRefillCount ∧
    merge_overlapping_pops ctx sc ≤ sc.scRefillMax ∧
    refill_sum_iters sc ≤ sc.scRefillMax ∧
    refill_ordered_disjoint_iters sc ≤ sc.scRefillMax ∧
    refill_at_least_min_budget_iters ctx sc ≤ sc.scRefillMax := by
  have hpops := merge_overlapping_pops_go_le ctx sc.scRefillCount sc
  have hsum := refill_sum_iters_go_eq sc sc.scRefillCount sc.scRefillHead 0 (by omega)
  have hodj := refill_ordered_disjoint_iters_go_le sc sc.scRefillCount
    sc.scRefillHead (refill_next sc sc.scRefillHead) 1
  have hamb := refill_at_least_min_budget_iters_go_le ctx sc sc.scRefillCount
    sc.scRefillHead 0
  refine ⟨?_, hpops, ?_, hsum, by exact hodj, ?_, by
    show merge_overlapping_pops_go ctx sc.scRefillCount sc ≤ _; omega, ?_, ?_, ?_⟩
  · intro hg
    have h1 : 1 < sc.scRefillCount := hg.1
    rw [merge_step_scRefillCount]
    omega
  · intro fuel hfuel
    exact merge_overlapping_go_fuel ctx sc.scRefillCount fuel sc.scRefillCount sc
      rfl hfuel le_rfl
  · show refill_at_least_min_budget_iters_go ctx sc _ _ _ ≤ _
    have := hamb
    omega
  · show refill_sum_iters_go sc _ _ _ ≤ _
    rw [show refill_sum_iters_go sc sc.scRefillCount sc.scRefillHead 0 =
      sc.scRefillCount from hsum]
    omega
  · show refill_ordered_disjoint_iters_go sc _ _ _ _ ≤ _
    omega
  · show refill_at_least_min_budget_iters_go ctx sc _ _ _ ≤ _
    omega

/-! ### Concrete instances for witnesses and counterexamples

All use `wcetScale = 1`; with `kernelWcetTicks = 5` this gives
`MIN_BUDGET = 10` and `MIN_SC_BUDGET = 20`, matching the concrete scenarios
of the specification. -/

def w1ctx : Ctx := ⟨20, 5, 1⟩

def w1sc : sched_context_t :=
  { scPeriod := 1000, scBudget := 100, scRefillMax := 4, scRefillHead := 0,
    scRefillCount := 1, scRefills := fun i => if i = 0 then ⟨0, 100⟩ else ⟨0, 0⟩ }

theorem budget_check_and_unblock_check_preserve_invariants_witness :
    (sc_wf w1sc ∧ sc_invariants w1ctx w1sc ∧ ¬ isRoundRobin w1sc) ∧
    ((sc_invariants w1ctx (refill_budget_check w1ctx w1sc 30) ∧
        1 ≤ (refill_budget_check w1ctx w1sc 30).scRefillCount) ∧
      (sc_invariants w1ctx (refill_unblock_check w1ctx w1sc) ∧
        1 ≤ (refill_unblock_check w1ctx w1sc).scRefillCount)) :=
  ⟨by decide,
   budget_check_and_unblock_check_preserve_invariants w1ctx w1sc 30
     (by decide) (by decide) (by decide)⟩

def w2ctx : Ctx := ⟨200, 5, 1⟩

def w2sc : sched_context_t :=
  { scPeriod := 500, scBudget := 40, scRefillMax := 1, scRefillHead := 0,
    scRefillCount := 1, scRefills := fun i => if i = 0 then ⟨100, 40⟩ else ⟨0, 0⟩ }

theorem refill_budget_check_overrun_witness :
    (sc_wf w2sc ∧ sc_invariants w2ctx w2sc ∧ ¬ isRoundRobin w2sc ∧
      (¬ refill_ready w2ctx w2sc ∨ (REFILL_HEAD w2sc).rAmount < 60)) ∧
    (refills_list (refill_budget_check w2ctx w2sc 60) =
      [⟨(REFILL_HEAD w2sc).rTime + w2sc.scPeriod + 60, w2sc.scBudget⟩] ∧
      (refill_budget_check w2ctx w2sc 60).scRefillCount = 1) :=
  ⟨by decide,
   refill_budget_check_overrun w2ctx w2sc 60 (by decide) (by decide) (by decide)
     (by decide)⟩

def c3ctx : Ctx := ⟨0, 5, 1⟩

def c3sc : sched_context_t :=
  { scPeriod := 1000, scBudget := 20, scRefillMax := 1, scRefillHead := 0,
    scRefillCount := 1, scRefills := fun i => if i = 0 then ⟨0, 20⟩ else ⟨0, 0⟩ }

/-- C3 counterexample: an active, invariant-satisfying SC updated to
`new_period = 10`, `new_budget = 20 = MIN_SC_BUDGET`, `new_max_refills = 1`
(all allowed by the claim) ends with a window of 20 ticks, violating the
claimed window constraint `tail.rTime + tail.rAmount - head.rTime ≤ 10`. -/
theorem refill_update_window_counterexample :
    sc_wf c3sc ∧ sc_invariants c3ctx c3sc ∧ sc_active c3sc ∧
    MIN_SC_BUDGET c3ctx ≤ 20 ∧ (1 : Nat) ≤ 1 ∧
    ¬ (sum_amounts (refills_list (refill_update c3ctx c3sc 10 20 1)) = 20 ∧
       within_period_l 10 (refills_list (refill_update c3ctx c3sc 10 20 1))) := by
  decide

theorem refill_update_ok_witness :
    (sc_wf c3sc ∧ sc_invariants c3ctx c3sc ∧ sc_active c3sc ∧
      MIN_SC_BUDGET c3ctx ≤ 20 ∧ (1 : Nat) ≤ 2 ∧ (20 : Nat) ≤ 50) ∧
    (sum_amounts (refills_list (refill_update c3ctx c3sc 50 20 2)) = 20 ∧
      within_period_l 50 (refills_list (refill_update c3ctx c3sc 50 20 2))) :=
  ⟨by decide,
   refill_update_ok c3ctx c3sc 50 20 2 (by decide) (by decide) (by decide)
     (by decide) (by decide) (by decide)⟩

def c4ctx : Ctx := ⟨0, 5, 1⟩

def c4sc : sched_context_t :=
  { scPeriod := 1000, scBudget := 20, scRefillMax := 1, scRefillHead := 0,
    scRefillCount := 1, scRefills := fun i => if i = 0 then ⟨100, 20⟩ else ⟨0, 0⟩ }

/-- C4 counterexample: an active, non-round-robin, invariant-satisfying SC
whose head is not yet ready (`100 > 0 + 5`).  `refill_unblock_check` is a
no-op on it, so `refill_ready` (and hence the claimed conjunction) does not
hold afterwards. -/
theorem refill_unblock_check_ready_counterexample :
    sc_wf c4sc ∧ sc_invariants c4ctx c4sc ∧ ¬ isRoundRobin c4sc ∧
    sc_active c4sc ∧
    ¬ (refill_ready c4ctx (refill_unblock_check c4ctx c4sc) ∧
       refill_sufficient c4ctx (refill_unblock_check c4ctx c4sc) 0) := by
  decide

def w4ctx : Ctx := ⟨200, 5, 1⟩

def w4sc : sched_context_t :=
  { scPeriod := 1000, scBudget := 100, scRefillMax := 4, scRefillHead := 0,
    scRefillCount := 3,
    scRefills := fun i =>
      if i = 0 then ⟨0, 40⟩ else if i = 1 then ⟨50, 30⟩ else
      if i = 2 then ⟨90, 30⟩ else ⟨0, 0⟩ }

theorem refill_unblock_check_postconditions_witness :
    (sc_wf w4sc ∧ sc_invariants w4ctx w4sc ∧ ¬ isRoundRobin w4sc ∧
      refill_ready w4ctx w4sc) ∧
    (refill_ready w4ctx (refill_unblock_check w4ctx w4sc) ∧
      refill_sufficient w4ctx (refill_unblock_check w4ctx w4sc) 0) :=
  ⟨by decide,
   refill_unblock_check_postconditions w4ctx w4sc (by decide) (by decide)
     (by decide) (by decide)⟩

def c5ctx : Ctx := ⟨0, 5, 1⟩

def c5sc : sched_context_t :=
  { scPeriod := 1000, scBudget := 20, scRefillMax := 1, scRefillHead := 0,
    scRefillCount := 1, scRefills := fun i => if i = 0 then ⟨100, 20⟩ else ⟨0, 0⟩ }

/-- C5 counterexample: on an active, non-round-robin, invariant-satisfying
SC that is not ready, `refill_budget_check 0` takes the overrun branch and
rewrites the queue (the single refill moves from time 100 to time 1100), so
it is not a no-op. -/
theorem refill_budget_check_zero_not_noop :
    sc_wf c5sc ∧ sc_invariants c5ctx c5sc ∧ ¬ isRoundRobin c5sc ∧
    ¬ (refills_list (refill_budget_check c5ctx c5sc 0) = refills_list c5sc ∧
       (refill_budget_check c5ctx c5sc 0).scRefillHead = c5sc.scRefillHead ∧
       (refill_budget_check c5ctx c5sc 0).scRefillCount = c5sc.scRefillCount) := by
  decide

def w5ctx : Ctx := ⟨0, 5, 1⟩

def w5sc : sched_context_t :=
  { scPeriod := 1000, scBudget := 20, scRefillMax := 2, scRefillHead := 0,
    scRefillCount := 2,
    scRefills := fun i => if i = 0 then ⟨0, 10⟩ else if i = 1 then ⟨990, 10⟩
      else ⟨0, 0⟩ }

theorem refill_budget_check_zero_noop_witness :
    (sc_wf w5sc ∧ sc_invariants w5ctx w5sc ∧ ¬ isRoundRobin w5sc ∧
      0 < MIN_BUDGET w5ctx ∧ refill_ready w5ctx w5sc ∧
      (REFILL_TAIL w5sc).rTime + (REFILL_TAIL w5sc).rAmount =
        (REFILL_HEAD w5sc).rTime + w5sc.scPeriod ∧
      (refill_full w5sc ∨ (REFILL_TAIL w5sc).rAmount < 2 * MIN_BUDGET w5ctx)) ∧
    refill_budget_check w5ctx w5sc 0 = w5sc :=
  ⟨by decide,
   refill_budget_check_zero_noop w5ctx w5sc (by decide) (by decide) (by decide)
     (by decide) (by decide) (by decide) (by decide)⟩

def w6ctx : Ctx := ⟨0, 15, 1⟩

def w6sc : sched_context_t :=
  { scPeriod := 600, scBudget := 65, scRefillMax := 4, scRefillHead := 0,
    scRefillCount := 2,
    scRefills := fun i => if i = 0 then ⟨0, 30⟩ else if i = 1 then ⟨95, 35⟩
      else ⟨0, 0⟩ }

theorem schedule_used_split_rebalance_witness :
    (sc_wf w6sc ∧ sc_invariants w6ctx w6sc ∧
      (REFILL_TAIL w6sc).rTime + (REFILL_TAIL w6sc).rAmount ≤ 600 ∧
      (25 : Nat) < MIN_BUDGET w6ctx ∧ ¬ refill_full w6sc ∧
      2 * MIN_BUDGET w6ctx ≤ (REFILL_TAIL w6sc).rAmount + 25) ∧
    (refills_list (schedule_used w6ctx w6sc ⟨600, 25⟩) =
      (refills_list w6sc).dropLast ++
        [⟨(REFILL_TAIL w6sc).rTime,
          (REFILL_TAIL w6sc).rAmount - (MIN_BUDGET w6ctx - 25)⟩,
         ⟨600 - (MIN_BUDGET w6ctx - 25), MIN_BUDGET w6ctx⟩] ∧
      (schedule_used w6ctx w6sc ⟨600, 25⟩).scRefillCount = w6sc.scRefillCount + 1 ∧
      MIN_BUDGET w6ctx ≤
        (REFILL_TAIL w6sc).rAmount - (MIN_BUDGET w6ctx - 25) ∧
      (REFILL_TAIL w6sc).rTime +
          ((REFILL_TAIL w6sc).rAmount - (MIN_BUDGET w6ctx - 25)) ≤
        600 - (MIN_BUDGET w6ctx - 25) ∧
      600 - (MIN_BUDGET w6ctx - 25) + (MIN_BUDGET w6ctx - 25) = (600 : Nat) ∧
      sum_amounts (refills_list (schedule_used w6ctx w6sc ⟨600, 25⟩)) =
        sum_amounts (refills_list w6sc) + 25) :=
  ⟨by decide,
   schedule_used_split_rebalance w6ctx w6sc ⟨600, 25⟩ (by decide) (by decide)
     (by decide) (by decide) (by decide) (by decide)⟩

def w7ctx : Ctx := ⟨0, 5, 1⟩

def w7sc : sched_context_t :=
  { scPeriod := 0, scBudget := 0, scRefillMax := 0, scRefillHead := 0,
    scRefillCount := 0, scRefills := fun _ => ⟨0, 0⟩ }

theorem refill_new_ok_witness :
    ((1 : Nat) ≤ 4 ∧ MIN_BUDGET w7ctx < 100) ∧
    ((refill_new w7ctx w7sc 4 100 1000).scRefillHead = 0 ∧
      (refill_new w7ctx w7sc 4 100 1000).scRefillCount = 1 ∧
      refills_list (refill_new w7ctx w7sc 4 100 1000) = [⟨w7ctx.ksCurTime, 100⟩] ∧
      refill_ready w7ctx (refill_new w7ctx w7sc 4 100 1000) ∧
      (refill_sufficient w7ctx (refill_new w7ctx w7sc 4 100 1000) 0 ↔
        MIN_BUDGET w7ctx ≤ 100)) :=
  ⟨by decide, refill_new_ok w7ctx w7sc 4 100 1000 (by decide) (by decide)⟩

def w8ctx : Ctx := ⟨0, 5, 1⟩

def w8sc : sched_context_t :=
  { scPeriod := 1000, scBudget := 100, scRefillMax := 4, scRefillHead := 0,
    scRefillCount := 1, scRefills := fun i => if i = 0 then ⟨0, 100⟩ else ⟨0, 0⟩ }

theorem refill_capacity_sufficient_spec_witness :
    ((1 : Nat) ≤ w8sc.scRefillCount) ∧
    ((refill_capacity w8sc 30 : Int) =
        max 0 (((REFILL_HEAD w8sc).rAmount : Int) - (30 : Int)) ∧
      ((REFILL_HEAD w8sc).rAmount < 30 → refill_capacity w8sc 30 = 0) ∧
      (refill_sufficient w8ctx w8sc 30 ↔
        MIN_BUDGET w8ctx ≤ refill_capacity w8sc 30)) :=
  ⟨by decide, refill_capacity_sufficient_spec w8ctx w8sc 30 (by decide)⟩

def c9ctx : Ctx := ⟨0, 5, 1⟩

def c9sc : sched_context_t :=
  { scPeriod := 1000, scBudget := 20, scRefillMax := 2, scRefillHead := 0,
    scRefillCount := 2,
    scRefills := fun i => if i = 0 then ⟨0, 10⟩ else if i = 1 then ⟨100, 10⟩
      else ⟨0, 0⟩ }

/-- C9 counterexample: on an invariant-satisfying queue of 2 refills, the
ordered-disjoint checker performs 1 iteration (its `seen` counter starts at
1 and it never exits early here), not `count = 2` as claimed for the
invariant checkers. -/
theorem checker_iterations_counterexample :
    sc_wf c9sc ∧ sc_invariants c9ctx c9sc ∧
    refill_ordered_disjoint c9sc = true ∧
    c9sc.scRefillCount = 2 ∧
    refill_ordered_disjoint_iters c9sc ≠ c9sc.scRefillCount := by
  decide

theorem engine_loops_terminate_witness :
    (c9sc.scRefillCount ≤ c9sc.scRefillMax) ∧
    (merge_overlapping_pops c9ctx c9sc ≤ c9sc.scRefillCount - 1 ∧
      refill_sum_iters c9sc = c9sc.scRefillCount ∧
      refill_ordered_disjoint_iters c9sc ≤ c9sc.scRefillCount - 1 ∧
      refill_at_least_min_budget_iters c9ctx c9sc ≤ c9sc.scRefillCount) :=
  ⟨by decide,
   ⟨(engine_loops_terminate c9ctx c9sc (by decide)).2.1,
    (engine_loops_terminate c9ctx c9sc (by decide)).2.2.2.1,
    (engine_loops_terminate c9ctx c9sc (by decide)).2.2.2.2.1,
    (engine_loops_terminate c9ctx c9sc (by decide)).2.2.2.2.2.1⟩⟩

def w10sc : sched_context_t :=
  { scPeriod := 1000, scBudget := 30, scRefillMax := 4, scRefillHead := 2,
    scRefillCount := 3,
    scRefills := fun i => if i = 2 then ⟨0, 10⟩ else if i = 3 then ⟨50, 10⟩
      else if i = 0 then ⟨100, 10⟩ else ⟨0, 0⟩ }

theorem ring_buffer_indices_in_range_witness :
    (w10sc.scRefillHead < w10sc.scRefillMax ∧
      w10sc.scRefillCount ≤ w10sc.scRefillMax) ∧
    (refill_next w10sc 3 < w10sc.scRefillMax ∧
      refill_tail_index w10sc < w10sc.scRefillMax ∧
      (refill_pop_head w10sc).2.scRefillHead < w10sc.scRefillMax ∧
      (refill_pop_head w10sc).2.scRefillCount + 1 = w10sc.scRefillCount ∧
      (refill_add_tail w10sc ⟨200, 10⟩).scRefillCount = w10sc.scRefillCount + 1 ∧
      refill_tail_index { w10sc with scRefillCount := w10sc.scRefillCount + 1 } <
        w10sc.scRefillMax) :=
  ⟨by decide,
   ⟨(ring_buffer_indices_in_range w10sc ⟨200, 10⟩ (by decide) (by decide)).1 3
      (by decide),
    (ring_buffer_indices_in_range w10sc ⟨200, 10⟩ (by decide) (by decide)).2.1
      (by decide),
    ((ring_buffer_indices_in_range w10sc ⟨200, 10⟩ (by decide) (by decide)).2.2.1
      (by decide)).1,
    ((ring_buffer_indices_in_range w10sc ⟨200, 10⟩ (by decide) (by decide)).2.2.1
      (by decide)).2.2,
    (ring_buffer_indices_in_range w10sc ⟨200, 10⟩ (by decide) (by decide)).2.2.2.1,
    (ring_buffer_indices_in_range w10sc ⟨200, 10⟩ (by decide) (by decide)).2.2.2.2
      (by decide)⟩⟩

end Sporadic
